/-
Verification of the llama-tools-and-thinking-mode repository core:
the file-system tool set and dispatcher (tools.py) and the
extraction / splitting / context-budget functions (llm_thinking_mode.py).

The Python code is shallowly embedded: pure functions on strings become
Lean functions on `String` / `List Char`, the file system becomes an
explicit `FS` value, Python `int` becomes `Int`, and the float
percentage computation is modelled exactly over `ℚ`.
-/
import Mathlib

namespace LlamaTools

/-! ## Python-style character and string helpers -/

/-- Characters matched by Python `str.strip()` and the regex class `\s`
(ASCII fragment). -/
def pySpace (c : Char) : Bool :=
  c = ' ' || c = '\t' || c = '\n' || c = '\r' || c = '\x0b' || c = '\x0c'

/-- Python `str.rstrip()` on a character list. -/
def rstripL (s : List Char) : List Char :=
  (s.reverse.dropWhile pySpace).reverse

/-- Python `str.strip()` on a character list. -/
def stripL (s : List Char) : List Char :=
  rstripL (s.dropWhile pySpace)

/-- Python `str.rstrip()` on a string. -/
def rstripS (s : String) : String :=
  ⟨rstripL s.data⟩

/-- Python `"".join(xs)`. -/
def concatAll (xs : List String) : String :=
  xs.foldl (fun a b => a ++ b) ""

/-- Python `sep.join(xs)`. -/
def joinSep (sep : String) : List String → String
  | [] => ""
  | x :: xs => xs.foldl (fun a b => a ++ sep ++ b) x

/-- Splits `s` at the first occurrence of the pattern `t`:
`splitFirst t s = some (a, b)` when `s = a ++ t ++ b` and no occurrence of
`t` starts before position `a.length`.  This is the basic building block
used to model leftmost matching of Python regular expressions. -/
def splitFirst (t : List Char) : List Char → Option (List Char × List Char)
  | [] => if t.isPrefixOf ([] : List Char) then some ([], []) else none
  | c :: s =>
    if t.isPrefixOf (c :: s) then some ([], (c :: s).drop t.length)
    else
      match splitFirst t s with
      | some (a, b) => some (c :: a, b)
      | none => none

/-- Boolean substring test, via `splitFirst`. -/
def containsSeq (t s : List Char) : Bool :=
  (splitFirst t s).isSome

/-- Generic leftmost regex-style scan: try the position matcher `mAt` at
every suffix, left to right, returning the first hit.  This models how a
Python `re.search` walks the subject string. -/
def scanFor (mAt : List Char → Option α) : List Char → Option α
  | [] => mAt []
  | c :: s =>
    match mAt (c :: s) with
    | some r => some r
    | none => scanFor mAt s

/-! ## tools.py : data model -/

/-- Container for tool execution results (`class ToolResult`). -/
structure ToolResult where
  success : Bool
  content : String
  error : Option String
deriving DecidableEq

/-- Outcome of the file-system accesses made by `Tools.read_file` at a
resolved path: `os.path.exists` plus `open(...).readlines()`.  `ok`
carries the `readlines()` result (each line keeps its newline). -/
inductive ReadOutcome where
  | notFound
  | ok (lines : List String)
  | decodeError
  | permissionError
  | otherError (msg : String)
deriving DecidableEq

/-- One directory entry as classified by `Tools.list_dir`
(`os.path.isdir` plus `os.path.getsize`). -/
inductive DirEntry where
  | dir (name : String)
  | file (name : String) (size : Nat)
deriving DecidableEq

/-- Outcome of the directory accesses made by `Tools.list_dir` at a
resolved path. -/
inductive DirOutcome where
  | notFound
  | notADir
  | permissionError
  | entries (items : List DirEntry)
  | otherError (msg : String)
deriving DecidableEq

/-- The file system as seen through the system calls the tool set makes. -/
structure FS where
  fileAt : String → ReadOutcome
  dirAt : String → DirOutcome

/-- Python `os.path.isabs` (POSIX). -/
def isAbs (p : String) : Bool :=
  p.startsWith "/"

/-- Python `os.path.join(root, p)` for the relative `p` the tools pass it. -/
def joinPath (root p : String) : String :=
  if root = "" then p
  else if root.endsWith "/" then root ++ p
  else root ++ "/" ++ p

/-- Path resolution in `Tools.read_file`: absolute paths are kept,
relative ones are joined to the workspace root. -/
def resolvePath (root target : String) : String :=
  if isAbs target then target else joinPath root target

/-! ## tools.py : Python values for keyword arguments -/

/-- The value types that flow through tool parameters. -/
inductive PyVal where
  | str (s : String)
  | int (n : Int)
  | bool (b : Bool)
deriving DecidableEq

/-- Python truthiness of a `PyVal` (`if should_read_entire_file:`). -/
def pyTruthy : PyVal → Bool
  | .str s => s ≠ ""
  | .int n => n ≠ 0
  | .bool b => b

/-- The integer value of a `PyVal` where Python would accept one in an
arithmetic comparison (`bool` is an `int` subclass in Python); `none`
when Python would raise `TypeError`. -/
def pyIntVal : PyVal → Option Int
  | .int n => some n
  | .bool b => some (if b then 1 else 0)
  | .str _ => none

/-- Rendering of a `PyVal` inside an f-string (`str(v)`). -/
def pyValStr : PyVal → String
  | .str s => s
  | .int n => toString n
  | .bool b => if b then "True" else "False"

/-- The interpreter text of a raised-and-caught `TypeError` is not part
of the repository; it is modelled by this fixed non-empty string (the
claims only ever inspect such messages for non-emptiness). -/
def typeErrorText : String := "TypeError"

abbrev KwArgs := List (String × PyVal)

/-- Python `key in kwargs`. -/
def hasKey (kwargs : KwArgs) (k : String) : Bool :=
  kwargs.any (fun kv => kv.1 = k)

/-- Python `kwargs[key]` (only meaningful when the key is present; a
keyword-argument dict has no duplicate keys). -/
def getKey (kwargs : KwArgs) (k : String) : PyVal :=
  match kwargs.find? (fun kv => kv.1 = k) with
  | some kv => kv.2
  | none => .str ""

/-! ## tools.py : read_file -/

/-- Body of `Tools.read_file` applied to arbitrary Python values, as it
is reached through `execute_tool(**kwargs)`.  The `try/except` in the
source recovers `UnicodeDecodeError`, `PermissionError` and every other
`Exception` (including the `TypeError`s raised by comparisons on
ill-typed arguments) into failed `ToolResult`s; those branches appear
here explicitly.  `explanationV` is accepted and ignored like in the
source. -/
def read_file_py (fs : FS) (root : String)
    (targetV entireV startV endV explanationV : PyVal) : ToolResult :=
  match targetV with
  | .str target_file =>
    match fs.fileAt (resolvePath root target_file) with
    | .notFound => ⟨false, "", some ("File not found: " ++ target_file)⟩
    | .decodeError =>
      ⟨false, "", some ("Cannot read file " ++ target_file ++
        ": File contains non-UTF-8 content")⟩
    | .permissionError =>
      ⟨false, "", some ("Permission denied reading file: " ++ target_file)⟩
    | .otherError m =>
      ⟨false, "", some ("Error reading file " ++ target_file ++ ": " ++ m)⟩
    | .ok lines =>
      let total_lines : Int := lines.length
      if pyTruthy entireV then
        let content := concatAll lines
        ⟨true, "Contents of " ++ target_file ++ ", lines 1-" ++
          toString total_lines ++ " (entire file):\n```\n" ++
          rstripS content ++ "\n```", none⟩
      else
        match pyIntVal startV with
        | none =>
          ⟨false, "", some ("Error reading file " ++ target_file ++ ": " ++
            typeErrorText)⟩
        | some start_line =>
          if start_line < 1 then
            ⟨false, "", some "Start line must be >= 1"⟩
          else
            match pyIntVal endV with
            | none =>
              ⟨false, "", some ("Error reading file " ++ target_file ++
                ": " ++ typeErrorText)⟩
            | some end_line =>
              if end_line < start_line then
                ⟨false, "", some "End line must be >= start line"⟩
              else
                let start_idx := start_line - 1
                let end_idx := min end_line total_lines
                let lines_to_read := end_idx - start_idx
                if lines_to_read > 250 then
                  ⟨false, "", some "Cannot read more than 250 lines at once"⟩
                else
                  let requested_lines :=
                    (lines.take end_idx.toNat).drop start_idx.toNat
                  let content := concatAll requested_lines
                  let lines_before := start_line - 1
                  let lines_after := total_lines - end_line
                  let summary_parts :=
                    (if lines_before > 0 then
                      ["Lines 1-" ++ toString lines_before ++ " not shown"]
                    else []) ++
                    (if lines_after > 0 then
                      ["Lines " ++ toString (end_line + 1) ++ "-" ++
                        toString total_lines ++ " not shown"]
                    else [])
                  let summary :=
                    if summary_parts.isEmpty then "Complete file section shown"
                    else joinSep " | " summary_parts
                  let actual_end := min end_line total_lines
                  let hdr :=
                    if end_line > total_lines then
                      "Requested to read lines " ++ toString start_line ++
                        "-" ++ toString end_line ++ ", but returning lines " ++
                        toString start_line ++ "-" ++ toString total_lines ++
                        " (end of file).\n"
                    else
                      "Contents of " ++ target_file ++ ", lines " ++
                        toString start_line ++ "-" ++ toString actual_end ++
                        ":\n"
                  let body := hdr ++ "```\n" ++ rstripS content ++ "\n```"
                  let result_content :=
                    if summary_parts.isEmpty then body
                    else body ++ "\n\nSummary: " ++ summary
                  ⟨true, result_content, none⟩
  | _ =>
    ⟨false, "", some ("Error reading file " ++ pyValStr targetV ++ ": " ++
      typeErrorText)⟩

/-- `Tools.read_file` at well-typed arguments (the signature declared in
the source). -/
def read_file (fs : FS) (root : String) (target_file : String)
    (should_read_entire_file : Bool)
    (start_line_one_indexed end_line_one_indexed_inclusive : Int)
    (explanation : String) : ToolResult :=
  read_file_py fs root (.str target_file) (.bool should_read_entire_file)
    (.int start_line_one_indexed) (.int end_line_one_indexed_inclusive)
    (.str explanation)

/-! ## tools.py : list_dir -/

/-- Size bucket formatting in `Tools.list_dir`. -/
def sizeStr (size : Nat) : String :=
  if size < 1024 then toString size ++ "B"
  else if size < 1024 * 1024 then toString (size / 1024) ++ "KB"
  else toString (size / (1024 * 1024)) ++ "MB"

def entryName : DirEntry → String
  | .dir n => n
  | .file n _ => n

/-- One formatted listing line. -/
def entryLine : DirEntry → String
  | .dir n => "📁 " ++ n ++ "/"
  | .file n size => "📄 " ++ n ++ " (" ++ sizeStr size ++ ")"

/-- Insertion into a name-sorted entry list (Python `sorted(os.listdir)`). -/
def insertEntry (e : DirEntry) : List DirEntry → List DirEntry
  | [] => [e]
  | x :: xs =>
    if entryName e ≤ entryName x then e :: x :: xs else x :: insertEntry e xs

def sortEntries (l : List DirEntry) : List DirEntry :=
  l.foldr insertEntry []

/-- Body of `Tools.list_dir` applied to arbitrary Python values.  A
non-string path fails the `== "."` comparison and then makes
`os.path.join` raise `TypeError`, recovered by the outer
`except Exception`. -/
def list_dir_py (fs : FS) (root : String) (pathV explanationV : PyVal) :
    ToolResult :=
  match pathV with
  | .str relative_workspace_path =>
    let dir_path :=
      if relative_workspace_path = "." then root
      else joinPath root relative_workspace_path
    match fs.dirAt dir_path with
    | .notFound =>
      ⟨false, "", some ("Directory not found: " ++ relative_workspace_path)⟩
    | .notADir =>
      ⟨false, "",
        some ("Path is not a directory: " ++ relative_workspace_path)⟩
    | .permissionError =>
      ⟨false, "", some ("Permission denied accessing directory: " ++
        relative_workspace_path)⟩
    | .otherError m =>
      ⟨false, "", some ("Error listing directory " ++
        relative_workspace_path ++ ": " ++ m)⟩
    | .entries itemsRaw =>
      let items := (sortEntries itemsRaw).map entryLine
      if items.isEmpty then
        ⟨true, "Directory '" ++ relative_workspace_path ++ "' is empty.",
          none⟩
      else
        ⟨true, "Contents of '" ++ relative_workspace_path ++ "':\n" ++
          joinSep "\n" items, none⟩
  | _ =>
    ⟨false, "", some ("Error listing directory " ++ pyValStr pathV ++ ": " ++
      typeErrorText)⟩

/-- `Tools.list_dir` at well-typed arguments. -/
def list_dir (fs : FS) (root : String) (relative_workspace_path : String)
    (explanation : String) : ToolResult :=
  list_dir_py fs root (.str relative_workspace_path) (.str explanation)

/-! ## tools.py : execute_tool -/

def requiredReadFile : List String :=
  ["target_file", "should_read_entire_file", "start_line_one_indexed",
   "end_line_one_indexed_inclusive", "explanation"]

def requiredListDir : List String :=
  ["relative_workspace_path", "explanation"]

/-- `Tools.execute_tool`.  After the missing-parameter check the source
calls `self.read_file(**kwargs)`; a key outside the function signature
makes that call raise `TypeError` before the tool body runs, and
`execute_tool` has no handler for it, so this is the one place where an
exception escapes (modelled with `Except.error`). -/
def execute_tool (fs : FS) (root : String) (tool_name : String)
    (kwargs : KwArgs) : Except String ToolResult :=
  if tool_name = "read_file" then
    let missing_params := requiredReadFile.filter (fun p => !(hasKey kwargs p))
    if missing_params.isEmpty then
      if kwargs.any (fun kv => !(requiredReadFile.contains kv.1)) then
        .error "TypeError: unexpected keyword argument"
      else
        .ok (read_file_py fs root (getKey kwargs "target_file")
          (getKey kwargs "should_read_entire_file")
          (getKey kwargs "start_line_one_indexed")
          (getKey kwargs "end_line_one_indexed_inclusive")
          (getKey kwargs "explanation"))
    else
      .ok ⟨false, "", some ("Missing required parameters: " ++
        joinSep ", " missing_params)⟩
  else if tool_name = "list_dir" then
    let missing_params := requiredListDir.filter (fun p => !(hasKey kwargs p))
    if missing_params.isEmpty then
      if kwargs.any (fun kv => !(requiredListDir.contains kv.1)) then
        .error "TypeError: unexpected keyword argument"
      else
        .ok (list_dir_py fs root (getKey kwargs "relative_workspace_path")
          (getKey kwargs "explanation"))
    else
      .ok ⟨false, "", some ("Missing required parameters: " ++
        joinSep ", " missing_params)⟩
  else
    .ok ⟨false, "", some ("Unknown tool: " ++ tool_name)⟩

/-! ## llm_thinking_mode.py : context-budget tracker

The source reads the window size for the globally configured model name
out of `CONTEXT_LIMITS` with default `32768`; the embedding passes the
model name explicitly.  The float percentage arithmetic is modelled
exactly over `ℚ`. -/

structure Message where
  role : String
  content : String

def CONTEXT_LIMITS : List (String × Nat) :=
  [("llama-3.2-1b", 8192), ("llama-3.2-3b", 32768),
   ("llama-3.2-8b", 131072), ("llama-3.2", 32768)]

/-- `CONTEXT_LIMITS.get(MODEL_NAME, 32768)`. -/
def contextLimit (model : String) : Nat :=
  match CONTEXT_LIMITS.find? (fun kv => kv.1 = model) with
  | some kv => kv.2
  | none => 32768

def WARNING_THRESHOLD : ℚ := 8 / 10
def CRITICAL_THRESHOLD : ℚ := 9 / 10

/-- `estimate_tokens`: `len(text) // 4`. -/
def estimate_tokens (text : String) : Nat :=
  text.data.length / 4

/-- `count_message_tokens`: per-message estimate plus an overhead of 10. -/
def count_message_tokens (messages : List Message) : Nat :=
  messages.foldl (fun total m => total + (estimate_tokens m.content + 10)) 0

inductive UsageStatus where
  | OK
  | WARNING
  | CRITICAL
deriving DecidableEq

/-- `get_context_usage`: returns
`(current_tokens, max_tokens, usage_percentage, status)`. -/
def get_context_usage (messages : List Message) (model : String) :
    Nat × Nat × ℚ × UsageStatus :=
  let max_tokens := contextLimit model
  let current_tokens := count_message_tokens messages
  let usage_percentage : ℚ := ((current_tokens : ℚ) / (max_tokens : ℚ)) * 100
  let status :=
    if usage_percentage ≥ CRITICAL_THRESHOLD * 100 then UsageStatus.CRITICAL
    else if usage_percentage ≥ WARNING_THRESHOLD * 100 then UsageStatus.WARNING
    else UsageStatus.OK
  (current_tokens, max_tokens, usage_percentage, status)

/-! ## llm_thinking_mode.py : thinking/answer splitter

`parse_thinking_response` uses `re.search(r'<thinking>(.*?)</thinking>',
response, re.DOTALL)` and
`re.sub(r'<thinking>.*?</thinking>\s*', '', response, flags=re.DOTALL)`.
Leftmost-shortest matching of this pattern is: split at the first
`<thinking>`, then split the remainder at the first `</thinking>`. -/

def tagOpenL : List Char := "<thinking>".data
def tagCloseL : List Char := "</thinking>".data

/-- The `re.search` of the splitter: `some (pre, inner, rest)` on the
leftmost match, with `inner` the shortest (lazy) group. -/
def search_thinking (s : List Char) :
    Option (List Char × List Char × List Char) :=
  match splitFirst tagOpenL s with
  | none => none
  | some (pre, rest1) =>
    match splitFirst tagCloseL rest1 with
    | none => none
    | some (inner, rest2) => some (pre, inner, rest2)

/-- Fuel-driven worker for the `re.sub` of the splitter; the fuel is
always instantiated with the subject length, which is proved sufficient
in the lemmas below. -/
def subThinkingGo : Nat → List Char → List Char
  | 0, s => s
  | fuel + 1, s =>
    match search_thinking s with
    | none => s
    | some (pre, _, rest2) =>
      pre ++ subThinkingGo fuel (rest2.dropWhile pySpace)

/-- The `re.sub(r'<thinking>.*?</thinking>\s*', '', response)` of the
splitter: removes every tagged region together with the whitespace run
that immediately follows it. -/
def sub_thinking (s : List Char) : List Char :=
  subThinkingGo s.length s

/-- `parse_thinking_response`. -/
def parse_thinking_response (response : List Char) : List Char × List Char :=
  match search_thinking response with
  | some (_, inner, _) => (stripL inner, stripL (sub_thinking response))
  | none =>
    match splitFirst ['\n', '\n'] response with
    | some (a, b) => (a, b)
    | none => ("No explicit thinking process found".data, response)

/-! ## llm_thinking_mode.py : tool-call extractor

`parse_tool_calls` scans the response with
`re.findall(r'TOOL:(\w+)\((.*?)\)', response, re.DOTALL)`, rescans the
contents of every ```` ```python ```` fenced block with the same pattern,
then extracts typed parameters per tool with `re.search`, and
de-duplicates on a composite call identity. -/

/-- The regex class `\w` (ASCII fragment). -/
def wordChar (c : Char) : Bool :=
  c.isAlphanum || c = '_'

/-- Membership in the regex class `["\']` (`\x27` is the single quote). -/
def isQuoteCh (c : Char) : Bool :=
  c = '"' || c = '\x27'

def toolMarker : List Char := "TOOL:".data

def fenceMarker : List Char := "```python".data

def nlFence : List Char := "\n```".data

/-- Match of `TOOL:(\w+)\((.*?)\)` anchored at the start of `s`:
the literal marker, a non-empty greedy word run, `(`, then the lazy
group up to the first `)`.  Returns `(name, inner, rest)`. -/
def matchToolAt (s : List Char) :
    Option (List Char × List Char × List Char) :=
  if toolMarker.isPrefixOf s then
    let s1 := s.drop toolMarker.length
    let name := s1.takeWhile wordChar
    if name.isEmpty then none
    else
      match s1.drop name.length with
      | '(' :: s2 =>
        match splitFirst [')'] s2 with
        | some (inner, rest) => some (name, inner, rest)
        | none => none
      | _ => none
  else none

/-- Fuel-driven `re.findall` scan for the tool pattern: try each
position left to right, and continue after the end of every match. -/
def scanToolsGo : Nat → List Char → List (List Char × List Char)
  | 0, _ => []
  | _ + 1, [] => []
  | fuel + 1, c :: s =>
    match matchToolAt (c :: s) with
    | some (name, inner, rest) => (name, inner) :: scanToolsGo fuel rest
    | none => scanToolsGo fuel s

def scanTools (s : List Char) : List (List Char × List Char) :=
  scanToolsGo s.length s

/-- Match of ```` ```python\s*\n(.*?)\n``` ```` anchored at the start of
`s`.  The greedy `\s*` followed by `\n` places the group start right
after the last newline of the whitespace run that follows the fence
label; the lazy group then runs to the first `"\n```"`. -/
def matchBlockAt (s : List Char) : Option (List Char × List Char) :=
  if fenceMarker.isPrefixOf s then
    let s1 := s.drop fenceMarker.length
    let ws := s1.takeWhile pySpace
    if ws.contains '\n' then
      let contentStart :=
        (ws.reverse.takeWhile (fun c => c ≠ '\n')).reverse ++
          s1.drop ws.length
      match splitFirst nlFence contentStart with
      | some (content, rest) => some (content, rest)
      | none => none
    else none
  else none

/-- Fuel-driven `re.findall` scan for fenced python blocks. -/
def findBlocksGo : Nat → List Char → List (List Char)
  | 0, _ => []
  | _ + 1, [] => []
  | fuel + 1, c :: s =>
    match matchBlockAt (c :: s) with
    | some (content, rest) => content :: findBlocksGo fuel rest
    | none => findBlocksGo fuel s

def findBlocks (s : List Char) : List (List Char) :=
  findBlocksGo s.length s

/-- Match of `key\s*=\s*["\']([^"\']+)["\']` anchored at the start of
`s`; returns the group. -/
def matchKeyQuotedAt (key : List Char) (s : List Char) :
    Option (List Char) :=
  if key.isPrefixOf s then
    match (s.drop key.length).dropWhile pySpace with
    | '=' :: s2 =>
      match s2.dropWhile pySpace with
      | q :: s4 =>
        if isQuoteCh q then
          let v := s4.takeWhile (fun c => !(isQuoteCh c))
          if v.isEmpty then none
          else
            match s4.drop v.length with
            | c :: _ => if isQuoteCh c then some v else none
            | [] => none
        else none
      | [] => none
    | _ => none
  else none

/-- Match of `key\s*=\s*["\']([^"\']*)["\']` (an empty group is allowed;
used for `relative_workspace_path`). -/
def matchKeyQuotedStarAt (key : List Char) (s : List Char) :
    Option (List Char) :=
  if key.isPrefixOf s then
    match (s.drop key.length).dropWhile pySpace with
    | '=' :: s2 =>
      match s2.dropWhile pySpace with
      | q :: s4 =>
        if isQuoteCh q then
          let v := s4.takeWhile (fun c => !(isQuoteCh c))
          match s4.drop v.length with
          | c :: _ => if isQuoteCh c then some v else none
          | [] => none
        else none
      | [] => none
    | _ => none
  else none

/-- Match of `key\s*=\s*([^,\s)]+)` anchored at the start of `s`. -/
def matchKeyBareAt (key : List Char) (s : List Char) : Option (List Char) :=
  if key.isPrefixOf s then
    match (s.drop key.length).dropWhile pySpace with
    | '=' :: s2 =>
      let v := (s2.dropWhile pySpace).takeWhile
        (fun c => !(c = ',' || pySpace c || c = ')'))
      if v.isEmpty then none else some v
    | _ => none
  else none

/-- Match of `key\s*=\s*(\d+)` anchored at the start of `s`. -/
def matchKeyNumAt (key : List Char) (s : List Char) : Option (List Char) :=
  if key.isPrefixOf s then
    match (s.drop key.length).dropWhile pySpace with
    | '=' :: s2 =>
      let v := (s2.dropWhile pySpace).takeWhile Char.isDigit
      if v.isEmpty then none else some v
    | _ => none
  else none

/-- Case-insensitive list prefix test (regex `re.IGNORECASE`). -/
def ciPrefixOf : List Char → List Char → Bool
  | [], _ => true
  | _ :: _, [] => false
  | c :: t, d :: s => (c.toLower = d.toLower) && ciPrefixOf t s

/-- Match of `key\s*=\s*(true|false)` with `re.IGNORECASE`, already
composed with the `.lower() == 'true'` conversion the source applies to
the group. -/
def matchBoolAt (key : List Char) (s : List Char) : Option Bool :=
  if ciPrefixOf key s then
    match (s.drop key.length).dropWhile pySpace with
    | '=' :: s2 =>
      let s3 := s2.dropWhile pySpace
      if ciPrefixOf "true".data s3 then some true
      else if ciPrefixOf "false".data s3 then some false
      else none
    | _ => none
  else none

/-- Python `int` of a non-empty decimal digit string. -/
def digitsToNat (d : List Char) : Nat :=
  d.foldl (fun a c => a * 10 + (c.toNat - 48)) 0

def keyTargetFile : List Char := "target_file".data
def keyShouldRead : List Char := "should_read_entire_file".data
def keyStartLine : List Char := "start_line_one_indexed".data
def keyEndLine : List Char := "end_line_one_indexed_inclusive".data
def keyExplanation : List Char := "explanation".data
def keyRelPath : List Char := "relative_workspace_path".data

/-- The two-pattern search for `target_file` (quoted first, then the
bare fallback); the source applies `.strip()` to the group. -/
def searchTargetFile (params_str : List Char) : Option (List Char) :=
  match scanFor (matchKeyQuotedAt keyTargetFile) params_str with
  | some v => some (stripL v)
  | none =>
    match scanFor (matchKeyBareAt keyTargetFile) params_str with
    | some v => some (stripL v)
    | none => none

/-- The `read_file` arm of the extraction loop: builds the parameter
dict (every key is present after defaulting, so the required-parameter
check of the source always passes here) and the composite call identity
`f"read_file:{target}:{start}:{end}"`.  `none` when `target_file`
cannot be extracted and the call is dropped with a diagnostic. -/
def readCallOf (params_str : List Char) : Option (KwArgs × String) :=
  match searchTargetFile params_str with
  | none => none
  | some target_file =>
    let should_read :=
      match scanFor (matchBoolAt keyShouldRead) params_str with
      | some b => b
      | none => false
    let start_line : Int :=
      match scanFor (matchKeyNumAt keyStartLine) params_str with
      | some d => (digitsToNat d : Int)
      | none => 1
    let end_line : Int :=
      match scanFor (matchKeyNumAt keyEndLine) params_str with
      | some d => (digitsToNat d : Int)
      | none => 50
    let explanation : String :=
      match scanFor (matchKeyQuotedAt keyExplanation) params_str with
      | some e => ⟨e⟩
      | none => "Reading file " ++ (⟨target_file⟩ : String)
    let params : KwArgs :=
      [("target_file", .str ⟨target_file⟩),
       ("should_read_entire_file", .bool should_read),
       ("start_line_one_indexed", .int start_line),
       ("end_line_one_indexed_inclusive", .int end_line),
       ("explanation", .str explanation)]
    let call_id :=
      "read_file:" ++ (⟨target_file⟩ : String) ++ ":" ++
        toString start_line ++ ":" ++ toString end_line
    some (params, call_id)

/-- The `list_dir` arm of the extraction loop: path and explanation with
defaults, and the call identity `f"list_dir:{path}"`. -/
def listDirCallOf (params_str : List Char) : KwArgs × String :=
  let path : String :=
    match scanFor (matchKeyQuotedStarAt keyRelPath) params_str with
    | some v => ⟨v⟩
    | none => "."
  let explanation : String :=
    match scanFor (matchKeyQuotedAt keyExplanation) params_str with
    | some e => ⟨e⟩
    | none => "Listing directory " ++ path
  ([("relative_workspace_path", .str path), ("explanation", .str explanation)],
   "list_dir:" ++ path)

/-- Match of `(\w+)\s*=\s*([^,]+)` anchored at the start of `s`; returns
`((key, group), rest-after-match)`.  When the greedy `\s*` leaves
nothing for `[^,]+`, the engine backtracks one whitespace character into
the group. -/
def matchPairAt (s : List Char) :
    Option ((List Char × List Char) × List Char) :=
  let w := s.takeWhile wordChar
  if w.isEmpty then none
  else
    match (s.drop w.length).dropWhile pySpace with
    | '=' :: s2 =>
      let ws := s2.takeWhile pySpace
      let rest := s2.drop ws.length
      let run := rest.takeWhile (fun c => c ≠ ',')
      if run.isEmpty then
        match ws.reverse with
        | x :: _ => some ((w, [x]), rest)
        | [] => none
      else
        some ((w, run), rest.drop run.length)
    | _ => none

/-- Fuel-driven `re.findall(r'(\w+)\s*=\s*([^,]+)', params_str)`. -/
def findPairsGo : Nat → List Char → List (List Char × List Char)
  | 0, _ => []
  | _ + 1, [] => []
  | fuel + 1, c :: s =>
    match matchPairAt (c :: s) with
    | some (kv, rest) => kv :: findPairsGo fuel rest
    | none => findPairsGo fuel s

def findPairs (s : List Char) : List (List Char × List Char) :=
  findPairsGo s.length s

/-- Value coercion of the generic arm: `strip`, then case-insensitive
booleans, then de-quoting, then `isdigit` integers, else the raw string. -/
def pyCoerceValue (raw : List Char) : PyVal :=
  let value := stripL raw
  let lower := value.map Char.toLower
  if lower = "true".data then .bool true
  else if lower = "false".data then .bool false
  else if (match value.head? with | some x => x = '"' | none => false) &&
      (match value.getLast? with | some x => x = '"' | none => false) then
    .str ⟨(value.drop 1).dropLast⟩
  else if (match value.head? with | some x => x.toNat = 39 | none => false) &&
      (match value.getLast? with | some x => x.toNat = 39 | none => false) then
    .str ⟨(value.drop 1).dropLast⟩
  else if !value.isEmpty && value.all Char.isDigit then
    .int (digitsToNat value)
  else .str ⟨value⟩

/-- Python dict insertion `params[key] = value` (later keys overwrite). -/
def setKey (kwargs : KwArgs) (k : String) (v : PyVal) : KwArgs :=
  if hasKey kwargs k then
    kwargs.map (fun kv => if kv.1 = k then (k, v) else kv)
  else kwargs ++ [(k, v)]

/-- CPython `repr` of a parameter value as it appears inside
`str(sorted(params.items()))`; quote escaping inside strings is not
modelled (no claim exercises it). -/
def pyRepr : PyVal → String
  | .str s => "'" ++ s ++ "'"
  | .int n => toString n
  | .bool b => if b then "True" else "False"

def insPair (kv : String × PyVal) : KwArgs → KwArgs
  | [] => [kv]
  | x :: xs => if kv.1 ≤ x.1 then kv :: x :: xs else x :: insPair kv xs

def sortPairsByKey (l : KwArgs) : KwArgs :=
  l.foldr insPair []

/-- `str(sorted(params.items()))`. -/
def reprSortedItems (params : KwArgs) : String :=
  "[" ++
    joinSep ", "
      ((sortPairsByKey params).map
        (fun kv => "('" ++ kv.1 ++ "', " ++ pyRepr kv.2 ++ ")")) ++
  "]"

/-- The per-match loop of `parse_tool_calls` with the `seen_calls` set:
builds each call's parameters, skips identities already seen. -/
def processCallsGo :
    List (List Char × List Char) → List String → List (String × KwArgs)
  | [], _ => []
  | (name, params_str) :: rest, seen =>
    if name = "read_file".data then
      match readCallOf params_str with
      | none => processCallsGo rest seen
      | some (params, call_id) =>
        if seen.contains call_id then processCallsGo rest seen
        else ("read_file", params) :: processCallsGo rest (call_id :: seen)
    else if name = "list_dir".data then
      let pc := listDirCallOf params_str
      if seen.contains pc.2 then processCallsGo rest seen
      else ("list_dir", pc.1) :: processCallsGo rest (pc.2 :: seen)
    else
      let pairs := findPairs params_str
      let params := pairs.foldl
        (fun d kv => setKey d (⟨kv.1⟩ : String) (pyCoerceValue kv.2)) []
      let call_id := (⟨name⟩ : String) ++ ":" ++ reprSortedItems params
      if seen.contains call_id then processCallsGo rest seen
      else ((⟨name⟩ : String), params) :: processCallsGo rest (call_id :: seen)

/-- `parse_tool_calls`: plain-text matches, then matches inside fenced
python blocks, de-duplicated in order. -/
def parse_tool_calls (response : List Char) : List (String × KwArgs) :=
  let allMatches :=
    scanTools response ++
      ((findBlocks response).map scanTools).foldr (fun a b => a ++ b) []
  processCallsGo allMatches []

/-! ## Input families for the extraction claims

These definitions build the "well-formed `TOOL:read_file(...)` call with
valid required fields" the spec quantifies over: every field present, in
the canonical order the system prompt shows, string values quoted. -/

def lowerL (s : List Char) : List Char :=
  s.map Char.toLower

/-- The parenthesised argument list of a well-formed `read_file` call. -/
def renderReadParams (F : List Char) (b : Bool) (S E X : List Char) :
    List Char :=
  "target_file=\"".data ++ F ++ "\", should_read_entire_file=".data ++
    (if b then "true".data else "false".data) ++
    ", start_line_one_indexed=".data ++ S ++
    ", end_line_one_indexed_inclusive=".data ++ E ++
    ", explanation=\"".data ++ X ++ "\"".data

/-- A full well-formed `TOOL:read_file(...)` call string. -/
def renderReadCall (F : List Char) (b : Bool) (S E X : List Char) :
    List Char :=
  "TOOL:read_file(".data ++ renderReadParams F b S E X ++ ")".data

/-- The single `ToolCall` the extractor is expected to produce for the
rendered call: the literal field values, numbers decoded. -/
def expectedReadCall (F : List Char) (b : Bool) (S E X : List Char) :
    String × KwArgs :=
  ("read_file",
   [("target_file", .str ⟨F⟩),
    ("should_read_entire_file", .bool b),
    ("start_line_one_indexed", .int (digitsToNat S)),
    ("end_line_one_indexed_inclusive", .int (digitsToNat E)),
    ("explanation", .str ⟨X⟩)])

/-- Valid file-name field: non-empty, no quotes, no closing paren, no
whitespace. -/
def goodFileField (v : List Char) : Prop :=
  v ≠ [] ∧ ∀ c ∈ v, isQuoteCh c = false ∧ c ≠ ')' ∧ pySpace c = false

/-- Valid line-number field: a non-empty digit string. -/
def goodNumField (v : List Char) : Prop :=
  v ≠ [] ∧ ∀ c ∈ v, c.isDigit = true

/-- Valid explanation field: non-empty, no quotes, no closing paren, no
newline. -/
def goodExplField (v : List Char) : Prop :=
  v ≠ [] ∧ ∀ c ∈ v, isQuoteCh c = false ∧ c ≠ ')' ∧ c ≠ '\n'

/-- The field values do not accidentally contain one of the later
parameter keys: the first occurrence of every key inside the rendered
argument list is the canonical one.  (The `should_read_entire_file`
condition is case-folded because that search is case-insensitive.) -/
def cleanReadParams (F : List Char) (b : Bool) (S E X : List Char) : Prop :=
  (splitFirst keyShouldRead (lowerL (renderReadParams F b S E X))).map
      Prod.fst =
    some (lowerL ("target_file=\"".data ++ F ++ "\", ".data)) ∧
  (splitFirst keyStartLine (renderReadParams F b S E X)).map Prod.fst =
    some ("target_file=\"".data ++ F ++ "\", should_read_entire_file=".data ++
      (if b then "true".data else "false".data) ++ ", ".data) ∧
  (splitFirst keyEndLine (renderReadParams F b S E X)).map Prod.fst =
    some ("target_file=\"".data ++ F ++ "\", should_read_entire_file=".data ++
      (if b then "true".data else "false".data) ++
      ", start_line_one_indexed=".data ++ S ++ ", ".data) ∧
  (splitFirst keyExplanation (renderReadParams F b S E X)).map Prod.fst =
    some ("target_file=\"".data ++ F ++ "\", should_read_entire_file=".data ++
      (if b then "true".data else "false".data) ++
      ", start_line_one_indexed=".data ++ S ++
      ", end_line_one_indexed_inclusive=".data ++ E ++ ", ".data)

/-! ## Generic lemmas about the scanning primitives -/

theorem splitFirst_sound {t : List Char} :
    ∀ {s a b : List Char}, splitFirst t s = some (a, b) → s = a ++ t ++ b := by
  intro s
  induction s with
  | nil =>
    intro a b h
    unfold splitFirst at h
    split at h
    · rename_i hp
      rw [List.isPrefixOf_iff_prefix] at hp
      have ht : t = [] := List.prefix_nil.mp hp
      simp only [Option.some.injEq, Prod.mk.injEq] at h
      obtain ⟨ha, hb⟩ := h
      simp [← ha, ← hb, ht]
    · simp at h
  | cons c s ih =>
    intro a b h
    unfold splitFirst at h
    split at h
    · rename_i hp
      rw [List.isPrefixOf_iff_prefix] at hp
      obtain ⟨u, hu⟩ := hp
      simp only [Option.some.injEq, Prod.mk.injEq] at h
      obtain ⟨ha, hb⟩ := h
      subst ha
      rw [← hu, List.drop_left] at hb
      rw [← hu, hb]
      simp
    · rename_i hp
      cases hsf : splitFirst t s with
      | none => rw [hsf] at h; simp at h
      | some ab =>
        obtain ⟨a1, b1⟩ := ab
        rw [hsf] at h
        simp only [Option.some.injEq, Prod.mk.injEq] at h
        obtain ⟨ha, hb⟩ := h
        subst ha; subst hb
        have := ih hsf
        rw [this]
        simp

theorem splitFirst_first_occ {t : List Char} :
    ∀ {s a b : List Char}, splitFirst t s = some (a, b) →
      ∀ k, k < a.length → ¬ t <+: s.drop k := by
  intro s
  induction s with
  | nil =>
    intro a b h k hk
    unfold splitFirst at h
    split at h
    · simp only [Option.some.injEq, Prod.mk.injEq] at h
      rw [← h.1] at hk
      simp at hk
    · simp at h
  | cons c s ih =>
    intro a b h k hk
    unfold splitFirst at h
    split at h
    · simp only [Option.some.injEq, Prod.mk.injEq] at h
      rw [← h.1] at hk
      simp at hk
    · rename_i hp
      cases hsf : splitFirst t s with
      | none => rw [hsf] at h; simp at h
      | some ab =>
        obtain ⟨a1, b1⟩ := ab
        rw [hsf] at h
        simp only [Option.some.injEq, Prod.mk.injEq] at h
        obtain ⟨ha, hb⟩ := h
        subst ha
        cases k with
        | zero =>
          intro hpre
          exact hp (List.isPrefixOf_iff_prefix.mpr hpre)
        | succ j =>
          have hj : j < a1.length := by
            simpa using Nat.lt_of_succ_lt_succ (by simpa using hk)
          simpa using ih hsf j hj

theorem splitFirst_none_occ {t : List Char} (ht : t ≠ []) :
    ∀ {s : List Char}, splitFirst t s = none → ∀ k, ¬ t <+: s.drop k := by
  intro s
  induction s with
  | nil =>
    intro _ k hp
    rw [List.drop_nil] at hp
    exact ht (List.prefix_nil.mp hp)
  | cons c s ih =>
    intro h k
    unfold splitFirst at h
    split at h
    · simp at h
    · rename_i hp
      cases hsf : splitFirst t s with
      | some ab => rw [hsf] at h; simp at h
      | none =>
        cases k with
        | zero =>
          intro hpre
          exact hp (List.isPrefixOf_iff_prefix.mpr hpre)
        | succ j =>
          simpa using ih hsf j

theorem splitFirst_eq_none {t : List Char} :
    ∀ {s : List Char}, (∀ k, ¬ t <+: s.drop k) → splitFirst t s = none := by
  intro s
  induction s with
  | nil =>
    intro h
    unfold splitFirst
    rw [if_neg]
    intro hp
    exact h 0 (by simpa using List.isPrefixOf_iff_prefix.mp hp)
  | cons c s ih =>
    intro h
    unfold splitFirst
    rw [if_neg]
    · rw [ih (fun k => by simpa using h (k + 1))]
    · intro hp
      exact h 0 (by simpa using List.isPrefixOf_iff_prefix.mp hp)

theorem splitFirst_self_append {t b : List Char} :
    splitFirst t (t ++ b) = some ([], b) := by
  cases t with
  | nil =>
    cases b with
    | nil => simp [splitFirst]
    | cons c s => simp [splitFirst, List.isPrefixOf]
  | cons c ts =>
    have hx : (c :: ts) ++ b = c :: (ts ++ b) := by simp
    rw [hx]
    unfold splitFirst
    rw [if_pos]
    · have hd : List.drop (c :: ts).length (c :: (ts ++ b)) = b := by
        rw [← hx, List.drop_left]
      rw [hd]
    · exact List.isPrefixOf_iff_prefix.mpr (by rw [← hx]; exact List.prefix_append _ _)

theorem splitFirst_of_first_occ {t : List Char} :
    ∀ {a : List Char} (b : List Char),
      (∀ k, k < a.length → ¬ t <+: (a ++ t ++ b).drop k) →
      splitFirst t (a ++ t ++ b) = some (a, b) := by
  intro a
  induction a with
  | nil =>
    intro b _
    simpa using splitFirst_self_append
  | cons x a ih =>
    intro b h
    have hx : x :: a ++ t ++ b = x :: (a ++ t ++ b) := by simp
    rw [hx]
    unfold splitFirst
    rw [if_neg]
    · rw [ih b (fun k hk => by simpa using h (k + 1) (by simpa using hk))]
    · intro hp
      exact h 0 (by simp) (by simpa using List.isPrefixOf_iff_prefix.mp hp)

theorem containsSeq_false_occ {t s : List Char} (ht : t ≠ [])
    (h : containsSeq t s = false) : ∀ k, ¬ t <+: s.drop k := by
  unfold containsSeq at h
  cases hsf : splitFirst t s with
  | some ab => rw [hsf] at h; simp at h
  | none => exact splitFirst_none_occ ht hsf

theorem scanFor_cons_none {α : Type} {mAt : List Char → Option α}
    {c : Char} {s : List Char} (h : mAt (c :: s) = none) :
    scanFor mAt (c :: s) = scanFor mAt s := by
  simp [scanFor, h]

theorem scanFor_eq_of_matchAt {α : Type} {mAt : List Char → Option α}
    {s : List Char} {r : α} (h : mAt s = some r) :
    scanFor mAt s = some r := by
  cases s with
  | nil => simpa [scanFor] using h
  | cons c s => simp [scanFor, h]

theorem scanFor_append_skip {α : Type} {mAt : List Char → Option α} :
    ∀ {a b : List Char},
      (∀ k, k < a.length → mAt ((a ++ b).drop k) = none) →
      scanFor mAt (a ++ b) = scanFor mAt b := by
  intro a
  induction a with
  | nil => intro b _; simp
  | cons x a ih =>
    intro b h
    have hx : x :: a ++ b = x :: (a ++ b) := by simp
    rw [hx]
    have h0 : mAt (x :: (a ++ b)) = none := by simpa using h 0 (by simp)
    rw [scanFor_cons_none h0]
    exact ih (fun k hk => by simpa using h (k + 1) (by simpa using hk))

theorem scanFor_eq_none {α : Type} {mAt : List Char → Option α} :
    ∀ {s : List Char}, (∀ k, mAt (s.drop k) = none) →
      scanFor mAt s = none := by
  intro s
  induction s with
  | nil => intro h; simpa [scanFor] using h 0
  | cons c s ih =>
    intro h
    have h0 : mAt (c :: s) = none := by simpa using h 0
    rw [scanFor_cons_none h0]
    exact ih (fun k => by simpa using h (k + 1))

/-- An occurrence of `t` that starts strictly inside `a` uses at most
`t.length - 1` characters of `b`. -/
theorem prefix_drop_append_take {t a b : List Char} {k : Nat}
    (hk : k < a.length) (h : t <+: (a ++ b).drop k) :
    t <+: (a ++ b.take (t.length - 1)).drop k := by
  have hd : (a ++ b).drop k = a.drop k ++ b := by
    rw [List.drop_append_eq_append_drop, Nat.sub_eq_zero_of_le (Nat.le_of_lt hk)]
    simp
  have hd2 : (a ++ b.take (t.length - 1)).drop k
      = a.drop k ++ b.take (t.length - 1) := by
    rw [List.drop_append_eq_append_drop, Nat.sub_eq_zero_of_le (Nat.le_of_lt hk)]
    simp
  rw [hd] at h
  rw [hd2]
  set x := a.drop k with hx
  have hxlen : 1 ≤ x.length := by
    rw [hx]
    simp only [List.length_drop]
    omega
  have heq : List.take t.length (x ++ b)
      = List.take t.length (x ++ b.take (t.length - 1)) := by
    by_cases hc : t.length ≤ x.length
    · rw [List.take_append_of_le_length hc, List.take_append_of_le_length hc]
    · push_neg at hc
      rw [List.take_append_eq_append_take, List.take_append_eq_append_take]
      congr 1
      rw [List.take_take]
      congr 1
      omega
  rw [List.prefix_iff_eq_take] at h
  rw [List.prefix_iff_eq_take]
  exact h.trans heq

/-- Transfers a decidable no-occurrence hypothesis on `a ++ (head of b)`
to the absence of matches starting inside `a` in `a ++ b`. -/
theorem no_occ_left {t a b : List Char} (ht : t ≠ [])
    (hc : containsSeq t (a ++ b.take (t.length - 1)) = false) :
    ∀ k, k < a.length → ¬ t <+: (a ++ b).drop k := by
  intro k hk h
  exact containsSeq_false_occ ht hc k (prefix_drop_append_take hk h)

/-- A pattern starting with a character absent from `a` has no
occurrence starting inside `a` in `a ++ b`. -/
theorem no_occ_of_head_notin {c : Char} {ts a : List Char} (hc : c ∉ a)
    (b : List Char) :
    ∀ k, k < a.length → ¬ (c :: ts) <+: (a ++ b).drop k := by
  intro k hk hp
  obtain ⟨u, hu⟩ := hp
  have h1 : ((a ++ b).drop k).head? = some c := by
    rw [← hu]; simp
  rw [List.head?_eq_getElem?, List.getElem?_drop, Nat.add_zero,
    List.getElem?_append, if_pos hk] at h1
  exact hc (List.getElem?_mem h1)

theorem str_append_ne_empty {a : String} (b : String) (ha : a ≠ "") :
    a ++ b ≠ "" := by
  intro h
  apply ha
  have hd := congrArg String.data h
  simp only [String.data_append] at hd
  rcases List.append_eq_nil.mp hd with ⟨h1, _⟩
  cases a
  simp_all

theorem takeWhile_append_stop {p : Char → Bool} {F l : List Char}
    (hF : ∀ c ∈ F, p c = true)
    (hl : ∀ x, l.head? = some x → p x = false) :
    (F ++ l).takeWhile p = F := by
  induction F with
  | nil =>
    simp only [List.nil_append]
    cases l with
    | nil => simp
    | cons x xs =>
      rw [List.takeWhile_cons, if_neg]
      simp [hl x rfl]
  | cons c F ih =>
    simp only [List.cons_append, List.takeWhile_cons]
    rw [if_pos (hF c (by simp))]
    rw [ih (fun d hd => hF d (by simp [hd]))]

theorem dropWhile_eq_self_head {p : Char → Bool} {l : List Char}
    (h : ∀ x, l.head? = some x → p x = false) :
    l.dropWhile p = l := by
  cases l with
  | nil => simp
  | cons x xs =>
    rw [List.dropWhile_cons, if_neg]
    simp [h x rfl]

theorem head?_mem_of_eq {l : List Char} {x : Char} (h : l.head? = some x) :
    x ∈ l := by
  cases l with
  | nil => simp at h
  | cons c cs =>
    simp only [List.head?_cons, Option.some.injEq] at h
    simp [← h]

theorem stripL_eq_self {v : List Char}
    (h : ∀ c ∈ v, pySpace c = false) : stripL v = v := by
  unfold stripL rstripL
  have h1 : v.dropWhile pySpace = v :=
    dropWhile_eq_self_head (fun x hx => h x (head?_mem_of_eq hx))
  rw [h1]
  have h2 : v.reverse.dropWhile pySpace = v.reverse :=
    dropWhile_eq_self_head
      (fun x hx => h x (List.mem_reverse.mp (head?_mem_of_eq hx)))
  rw [h2, List.reverse_reverse]

theorem digit_not_space {c : Char} (h : c.isDigit = true) :
    pySpace c = false := by
  by_contra hs
  simp only [Bool.not_eq_false, pySpace, Bool.or_eq_true, decide_eq_true_eq]
    at hs
  rcases hs with ((((h1 | h1) | h1) | h1) | h1) | h1 <;>
    (subst h1; exact absurd h (by decide))

/-! ## C10 : empty directory message -/

/-- C10: when the resolved directory exists and has no entries,
`list_dir` returns success with an explicit "is empty" message, which is
in particular not the empty content string. -/
theorem c10_list_dir_empty (fs : FS) (root relPath expl : String)
    (h : fs.dirAt (if relPath = "." then root else joinPath root relPath)
      = .entries []) :
    list_dir fs root relPath expl =
      ⟨true, "Directory '" ++ relPath ++ "' is empty.", none⟩ ∧
    (list_dir fs root relPath expl).content ≠ "" := by
  have hmain : list_dir fs root relPath expl =
      ⟨true, "Directory '" ++ relPath ++ "' is empty.", none⟩ := by
    simp only [list_dir, list_dir_py]
    rw [h]
    rfl
  refine ⟨hmain, ?_⟩
  rw [hmain]
  show "Directory '" ++ relPath ++ "' is empty." ≠ ""
  exact str_append_ne_empty (relPath ++ "' is empty.")
    (show ("Directory '" : String) ≠ "" by decide)

/-- C10 witness: a concrete empty directory listing. -/
theorem c10_witness :
    list_dir ⟨fun _ => .notFound, fun _ => .entries []⟩ "/w" "." "why"
      = ⟨true, "Directory '.' is empty.", none⟩ ∧
    (list_dir ⟨fun _ => .notFound, fun _ => .entries []⟩ "/w" "." "why").content
      ≠ "" := by
  have h := c10_list_dir_empty ⟨fun _ => .notFound, fun _ => .entries []⟩
    "/w" "." "why" rfl
  simpa using h

/-! ## C7 : dispatcher validation -/

/-- C7: for the two registered tools, a call whose `kwargs` misses
required keys fails with the `MissingParameters` message naming exactly
the filtered list of absent keys (every absent key is in it), and the
result does not depend on the file system or workspace root (the tool is
not invoked); `read_file` missing only `explanation` names exactly
`explanation`; any unregistered tool name fails with `UnknownTool`. -/
theorem c7_execute_tool_validation :
    (∀ (fs fs2 : FS) (root root2 : String) (kwargs : KwArgs),
      requiredReadFile.filter (fun p => !(hasKey kwargs p)) ≠ [] →
      execute_tool fs root "read_file" kwargs =
        .ok ⟨false, "", some ("Missing required parameters: " ++
          joinSep ", " (requiredReadFile.filter (fun p => !(hasKey kwargs p))))⟩ ∧
      execute_tool fs root "read_file" kwargs =
        execute_tool fs2 root2 "read_file" kwargs ∧
      ∀ p ∈ requiredReadFile, hasKey kwargs p = false →
        p ∈ requiredReadFile.filter (fun q => !(hasKey kwargs q))) ∧
    (∀ (fs fs2 : FS) (root root2 : String) (kwargs : KwArgs),
      requiredListDir.filter (fun p => !(hasKey kwargs p)) ≠ [] →
      execute_tool fs root "list_dir" kwargs =
        .ok ⟨false, "", some ("Missing required parameters: " ++
          joinSep ", " (requiredListDir.filter (fun p => !(hasKey kwargs p))))⟩ ∧
      execute_tool fs root "list_dir" kwargs =
        execute_tool fs2 root2 "list_dir" kwargs ∧
      ∀ p ∈ requiredListDir, hasKey kwargs p = false →
        p ∈ requiredListDir.filter (fun q => !(hasKey kwargs q))) ∧
    (∀ (fs : FS) (root : String) (kwargs : KwArgs),
      hasKey kwargs "target_file" = true →
      hasKey kwargs "should_read_entire_file" = true →
      hasKey kwargs "start_line_one_indexed" = true →
      hasKey kwargs "end_line_one_indexed_inclusive" = true →
      hasKey kwargs "explanation" = false →
      execute_tool fs root "read_file" kwargs =
        .ok ⟨false, "", some "Missing required parameters: explanation"⟩) ∧
    (∀ (fs : FS) (root tool_name : String) (kwargs : KwArgs),
      tool_name ≠ "read_file" → tool_name ≠ "list_dir" →
      execute_tool fs root tool_name kwargs =
        .ok ⟨false, "", some ("Unknown tool: " ++ tool_name)⟩) := by
  refine ⟨?_, ?_, ?_, ?_⟩
  · intro fs fs2 root root2 kwargs h
    have hempty : (requiredReadFile.filter (fun p => !(hasKey kwargs p))).isEmpty
        = false := by
      cases hm : requiredReadFile.filter (fun p => !(hasKey kwargs p)) with
      | nil => exact absurd hm h
      | cons a l => rfl
    refine ⟨?_, ?_, ?_⟩
    · simp [execute_tool, hempty]
    · simp [execute_tool, hempty]
    · intro p hp hkey
      simp [List.mem_filter, hp, hkey]
  · intro fs fs2 root root2 kwargs h
    have hempty : (requiredListDir.filter (fun p => !(hasKey kwargs p))).isEmpty
        = false := by
      cases hm : requiredListDir.filter (fun p => !(hasKey kwargs p)) with
      | nil => exact absurd hm h
      | cons a l => rfl
    refine ⟨?_, ?_, ?_⟩
    · simp [execute_tool, hempty]
    · simp [execute_tool, hempty]
    · intro p hp hkey
      simp [List.mem_filter, hp, hkey]
  · intro fs root kwargs h1 h2 h3 h4 h5
    have hfilter : requiredReadFile.filter (fun p => !(hasKey kwargs p))
        = ["explanation"] := by
      simp [requiredReadFile, List.filter, h1, h2, h3, h4, h5]
    simp [execute_tool, hfilter]
    rfl
  · intro fs root tool_name kwargs h1 h2
    simp [execute_tool, h1, h2]

/-- C7 witness: concrete instances for each part of the theorem. -/
theorem c7_witness :
    execute_tool ⟨fun _ => .notFound, fun _ => .notFound⟩ "/w" "read_file"
        [("target_file", .str "a.txt")] =
      .ok ⟨false, "", some ("Missing required parameters: " ++ joinSep ", "
        (requiredReadFile.filter
          (fun p => !(hasKey [("target_file", PyVal.str "a.txt")] p))))⟩ ∧
    execute_tool ⟨fun _ => .notFound, fun _ => .notFound⟩ "/w" "read_file"
        [("target_file", .str "a.txt"), ("should_read_entire_file", .bool false),
         ("start_line_one_indexed", .int 1),
         ("end_line_one_indexed_inclusive", .int 2)] =
      .ok ⟨false, "", some "Missing required parameters: explanation"⟩ ∧
    execute_tool ⟨fun _ => .notFound, fun _ => .notFound⟩ "/w" "frobnicate" [] =
      .ok ⟨false, "", some ("Unknown tool: " ++ "frobnicate")⟩ := by
  refine ⟨?_, ?_, ?_⟩
  · exact (c7_execute_tool_validation.1 _ ⟨fun _ => .notFound, fun _ => .notFound⟩
      _ "/w" _ (by decide)).1
  · exact c7_execute_tool_validation.2.2.1 _ _ _
      (by decide) (by decide) (by decide) (by decide) (by decide)
  · exact c7_execute_tool_validation.2.2.2 _ _ _ _
      (by decide) (by decide)

/-! ## C1 : the 250-line cap -/

/-- C1 (amended): in range mode with valid bounds on an existing text
file, the call fails with the `RangeTooLarge` error (`"Cannot read more
than 250 lines at once"`, empty content) precisely when the
e-clamped span `min(end, total_lines) - (start - 1)` exceeds 250 —
not when the requested span `end - start` does. -/
theorem c1_range_cap_amended (fs : FS) (root target expl : String)
    (lines : List String) (start endL : Int)
    (hfs : fs.fileAt (resolvePath root target) = .ok lines)
    (h1 : 1 ≤ start) (h2 : start ≤ endL) :
    (read_file fs root target false start endL expl =
        ⟨false, "", some "Cannot read more than 250 lines at once"⟩ ↔
      250 < min endL (lines.length : Int) - (start - 1)) := by
  have hns : ¬ (start < 1) := by omega
  have hne : ¬ (endL < start) := by omega
  by_cases hc : 250 < min endL (lines.length : Int) - (start - 1)
  · simp [read_file, read_file_py, hfs, pyTruthy, pyIntVal, hns, hne, hc]
  · simp [read_file, read_file_py, hfs, pyTruthy, pyIntVal, hns, hne, hc]

/-- C1 witness: a 260-line file read as lines 1–260 trips the cap. -/
theorem c1_witness :
    read_file ⟨fun _ => .ok (List.replicate 260 "x\n"), fun _ => .notFound⟩
        "/w" "f" false 1 260 "e" =
      ⟨false, "", some "Cannot read more than 250 lines at once"⟩ :=
  (c1_range_cap_amended _ "/w" "f" "e" (List.replicate 260 "x\n") 1 260
    rfl (by decide) (by decide)).mpr
    (by rw [List.length_replicate]; decide)

/-- C1 counterexample: on a 1-line file, a request for lines 1–1000 has
`end - start = 999 > 250` yet the call succeeds, because the cap is
checked only after clamping the end to the file length. -/
theorem c1_counterexample :
    (read_file ⟨fun _ => .ok ["x\n"], fun _ => .notFound⟩ "/w" "a.txt"
        false 1 1000 "ex").success = true ∧
    (250 : Int) < 1000 - 1 := by
  exact ⟨rfl, by decide⟩

/-! ## C2 : clamping the end line -/

/-- C2 (amended): in range mode with valid bounds on an existing text
file whose length is below the requested end line, **provided the
clamped span `total_lines - (start - 1)` is at most 250**, the call
succeeds, returns the lines from `start` to the end of the file, and the
content states explicitly that the range was truncated to end-of-file
(with the lines-not-shown summary when `start > 1`). -/
theorem c2_truncated_read (fs : FS) (root target expl : String)
    (lines : List String) (start endL : Int)
    (hfs : fs.fileAt (resolvePath root target) = .ok lines)
    (h1 : 1 ≤ start) (h2 : start ≤ endL)
    (h3 : (lines.length : Int) < endL)
    (h4 : (lines.length : Int) - (start - 1) ≤ 250) :
    read_file fs root target false start endL expl =
      ⟨true,
        (if 1 < start then
          "Requested to read lines " ++ toString start ++ "-" ++
            toString endL ++ ", but returning lines " ++ toString start ++
            "-" ++ toString (lines.length : Int) ++ " (end of file).\n" ++
            "```\n" ++ rstripS (concatAll (lines.drop (start - 1).toNat)) ++
            "\n```" ++ "\n\nSummary: " ++
            ("Lines 1-" ++ toString (start - 1) ++ " not shown")
        else
          "Requested to read lines " ++ toString start ++ "-" ++
            toString endL ++ ", but returning lines " ++ toString start ++
            "-" ++ toString (lines.length : Int) ++ " (end of file).\n" ++
            "```\n" ++ rstripS (concatAll (lines.drop (start - 1).toNat)) ++
            "\n```"),
        none⟩ := by
  have hns : ¬ (start < 1) := by omega
  have hne : ¬ (endL < start) := by omega
  have hmin : min endL (lines.length : Int) = (lines.length : Int) :=
    min_eq_right (le_of_lt h3)
  have hcap : ¬ (250 < min endL (lines.length : Int) - (start - 1)) := by
    rw [hmin]; omega
  have hcap2 : ¬ (250 < (lines.length : Int) - (start - 1)) := by omega
  have hafter : ¬ ((0 : Int) < (lines.length : Int) - endL) := by omega
  by_cases hbefore : (0 : Int) < start - 1
  · have hstart : 1 < start := by omega
    simp [read_file, read_file_py, hfs, pyTruthy, pyIntVal, hns, hne,
      hmin, hcap, hcap2, hafter, hbefore, hstart, h3, joinSep]
  · have hstart : ¬ ((1 : Int) < start) := by omega
    simp [read_file, read_file_py, hfs, pyTruthy, pyIntVal, hns, hne,
      hmin, hcap, hcap2, hafter, hbefore, hstart, h3, joinSep]

set_option maxRecDepth 8000 in
/-- C2 witness: `start_line_one_indexed=5`, `end_line_one_indexed_inclusive=2000`
on a 50-line file: success with lines 5–50 and the truncation note. -/
theorem c2_witness :
    read_file ⟨fun _ => .ok (List.replicate 50 "x\n"), fun _ => .notFound⟩
        "/w" "notes.txt" false 5 2000 "e" =
      ⟨true,
        (if (1 : Int) < 5 then
          "Requested to read lines " ++ toString (5 : Int) ++ "-" ++
            toString (2000 : Int) ++ ", but returning lines " ++
            toString (5 : Int) ++ "-" ++
            toString ((List.replicate 50 ("x\n" : String)).length : Int) ++
            " (end of file).\n" ++ "```\n" ++
            rstripS (concatAll ((List.replicate 50 ("x\n" : String)).drop
              ((5 : Int) - 1).toNat)) ++
            "\n```" ++ "\n\nSummary: " ++
            ("Lines 1-" ++ toString ((5 : Int) - 1) ++ " not shown")
        else
          "Requested to read lines " ++ toString (5 : Int) ++ "-" ++
            toString (2000 : Int) ++ ", but returning lines " ++
            toString (5 : Int) ++ "-" ++
            toString ((List.replicate 50 ("x\n" : String)).length : Int) ++
            " (end of file).\n" ++ "```\n" ++
            rstripS (concatAll ((List.replicate 50 ("x\n" : String)).drop
              ((5 : Int) - 1).toNat)) ++
            "\n```"),
        none⟩ :=
  c2_truncated_read _ "/w" "notes.txt" "e" _ 5 2000 rfl (by decide) (by decide)
    (by rw [List.length_replicate]; decide)
    (by rw [List.length_replicate]; decide)

set_option maxRecDepth 8000 in
/-- C2 counterexample: a 300-line file requested as lines 1–301 has its
requested end beyond the file length, yet the call fails with
`RangeTooLarge` instead of succeeding, because the clamped span of 300
lines still exceeds the 250-line cap. -/
theorem c2_counterexample :
    (read_file ⟨fun _ => .ok (List.replicate 300 "x\n"), fun _ => .notFound⟩
        "/w" "f" false 1 301 "e") =
      ⟨false, "", some "Cannot read more than 250 lines at once"⟩ ∧
    ((List.replicate 300 ("x\n" : String)).length : Int) < 301 := by
  have hlen : (List.replicate 300 ("x\n" : String)).length = 300 :=
    List.length_replicate 300 "x\n"
  constructor
  · have hns : ¬ ((1 : Int) < 1) := by omega
    have hne : ¬ ((301 : Int) < 1) := by omega
    have hcap : (250 : Int) <
        min 301 ((List.replicate 300 ("x\n" : String)).length : Int) - (1 - 1) := by
      rw [hlen]; decide
    simp [read_file, read_file_py, pyTruthy, pyIntVal, hns, hne, hcap]
  · rw [hlen]; decide

/-! ## C8 : the omitted-lines summary -/

/-- C8 (code evaluation at the failing input): a range-mode read that
returns the complete file (lines 1–2 of a 2-line file) omits no lines,
and the code appends **no** summary at all — in particular neither the
word `Summary` nor the `Complete file section shown` text promised by
the specification appears in the content. -/
theorem c8_no_summary_on_complete_read :
    read_file ⟨fun _ => .ok ["a\n", "b\n"], fun _ => .notFound⟩ "/w" "f.txt"
        false 1 2 "e" =
      ⟨true, "Contents of f.txt, lines 1-2:\n```\na\nb\n```", none⟩ ∧
    containsSeq "Summary".data
      (read_file ⟨fun _ => .ok ["a\n", "b\n"], fun _ => .notFound⟩ "/w" "f.txt"
        false 1 2 "e").content.data = false ∧
    containsSeq "Complete file section shown".data
      (read_file ⟨fun _ => .ok ["a\n", "b\n"], fun _ => .notFound⟩ "/w" "f.txt"
        false 1 2 "e").content.data = false := by
  refine ⟨by decide, by decide, by decide⟩

/-! ## C5, C6 : context-budget tracker -/

theorem count_message_tokens_eq (messages : List Message) :
    count_message_tokens messages =
      (messages.map (fun m => m.content.data.length / 4 + 10)).sum := by
  have haux : ∀ (l : List Message) (n : Nat),
      l.foldl (fun total m => total + (m.content.data.length / 4 + 10)) n =
        n + (l.map (fun m => m.content.data.length / 4 + 10)).sum := by
    intro l
    induction l with
    | nil => simp
    | cons x l ih =>
      intro n
      simp only [List.foldl_cons, List.map_cons, List.sum_cons, ih]
      omega
  simpa [count_message_tokens, estimate_tokens] using haux messages 0

/-- C5: the estimated usage is the sum over messages of
`len(content) // 4 + 10`, and the status classifies the exact
percentage as `OK` below 80, `WARNING` in `[80, 90)` and `CRITICAL`
from 90 up. -/
theorem c5_context_usage_spec (messages : List Message) (model : String) :
    (get_context_usage messages model).1 =
      (messages.map (fun m => m.content.data.length / 4 + 10)).sum ∧
    ((get_context_usage messages model).2.2.2 = UsageStatus.OK ↔
      (get_context_usage messages model).2.2.1 < 80) ∧
    ((get_context_usage messages model).2.2.2 = UsageStatus.WARNING ↔
      80 ≤ (get_context_usage messages model).2.2.1 ∧
        (get_context_usage messages model).2.2.1 < 90) ∧
    ((get_context_usage messages model).2.2.2 = UsageStatus.CRITICAL ↔
      90 ≤ (get_context_usage messages model).2.2.1) := by
  have h90 : CRITICAL_THRESHOLD * 100 = (90 : ℚ) := by
    norm_num [CRITICAL_THRESHOLD]
  have h80 : WARNING_THRESHOLD * 100 = (80 : ℚ) := by
    norm_num [WARNING_THRESHOLD]
  simp only [get_context_usage, h90, h80]
  refine ⟨count_message_tokens_eq messages, ?_⟩
  set pct : ℚ :=
    ((count_message_tokens messages : ℚ) / (contextLimit model : ℚ)) * 100
    with hpct
  split_ifs with hA hB
  · refine ⟨?_, ?_, ?_⟩
    · exact ⟨fun h => absurd h (by decide), fun h => absurd hA (by linarith)⟩
    · exact ⟨fun h => absurd h (by decide), fun h => absurd hA (by linarith [h.2])⟩
    · exact ⟨fun _ => hA, fun _ => rfl⟩
  · have hA2 : pct < 90 := lt_of_not_ge hA
    refine ⟨?_, ?_, ?_⟩
    · exact ⟨fun h => absurd h (by decide), fun h => absurd hB (by linarith)⟩
    · exact ⟨fun _ => ⟨hB, hA2⟩, fun _ => rfl⟩
    · exact ⟨fun h => absurd h (by decide), fun h => absurd h (by linarith)⟩
  · have hA2 : pct < 90 := lt_of_not_ge hA
    have hB2 : pct < 80 := lt_of_not_ge hB
    refine ⟨?_, ?_, ?_⟩
    · exact ⟨fun _ => hB2, fun _ => rfl⟩
    · exact ⟨fun h => absurd h (by decide), fun h => absurd h.1 (by linarith)⟩
    · exact ⟨fun h => absurd h (by decide), fun h => absurd h (by linarith)⟩

/-- C6 (amended): on the 8192-token model `llama-3.2-1b`, a history
estimated at 7000 tokens (≈ 85.4%) reports `WARNING`, one at 6000
(≈ 73.2%) reports `OK`, and one at 1000 (≈ 12.2%) reports `OK`. -/
theorem c6_status_examples (messages : List Message) :
    (count_message_tokens messages = 7000 →
      (get_context_usage messages "llama-3.2-1b").2.2.2 =
        UsageStatus.WARNING) ∧
    (count_message_tokens messages = 6000 →
      (get_context_usage messages "llama-3.2-1b").2.2.2 = UsageStatus.OK) ∧
    (count_message_tokens messages = 1000 →
      (get_context_usage messages "llama-3.2-1b").2.2.2 = UsageStatus.OK) := by
  have hlim : contextLimit "llama-3.2-1b" = 8192 := by rfl
  refine ⟨?_, ?_, ?_⟩
  · intro h
    simp only [get_context_usage, hlim, h]
    rw [if_neg (by norm_num [CRITICAL_THRESHOLD]),
      if_pos (by norm_num [WARNING_THRESHOLD])]
  · intro h
    simp only [get_context_usage, hlim, h]
    rw [if_neg (by norm_num [CRITICAL_THRESHOLD]),
      if_neg (by norm_num [WARNING_THRESHOLD])]
  · intro h
    simp only [get_context_usage, hlim, h]
    rw [if_neg (by norm_num [CRITICAL_THRESHOLD]),
      if_neg (by norm_num [WARNING_THRESHOLD])]

theorem count_message_tokens_replicate_empty (n : Nat) :
    count_message_tokens (List.replicate n ⟨"user", ""⟩) = n * 10 := by
  rw [count_message_tokens_eq, List.map_replicate]
  show (List.replicate n (([] : List Char).length / 4 + 10)).sum = n * 10
  rw [List.sum_replicate]
  simp [Nat.smul_one_eq_cast]

/-- C6 witness: concrete histories estimated at exactly 7000, 6000 and
1000 tokens (700, 600 and 100 empty messages at 10 overhead tokens each)
against the 8192-token model. -/
theorem c6_witness :
    (get_context_usage (List.replicate 700 ⟨"user", ""⟩)
      "llama-3.2-1b").2.2.2 = UsageStatus.WARNING ∧
    (get_context_usage (List.replicate 600 ⟨"user", ""⟩)
      "llama-3.2-1b").2.2.2 = UsageStatus.OK ∧
    (get_context_usage (List.replicate 100 ⟨"user", ""⟩)
      "llama-3.2-1b").2.2.2 = UsageStatus.OK := by
  refine ⟨(c6_status_examples _).1 ?_, (c6_status_examples _).2.1 ?_,
    (c6_status_examples _).2.2 ?_⟩
  · rw [count_message_tokens_replicate_empty]
  · rw [count_message_tokens_replicate_empty]
  · rw [count_message_tokens_replicate_empty]

/-- C6 counterexample: a history estimated at exactly 7000 tokens on the
8192-token model is reported `WARNING` (85.4%), not `CRITICAL` as the
claim states. -/
theorem c6_counterexample :
    count_message_tokens (List.replicate 700 ⟨"user", ""⟩) = 7000 ∧
    contextLimit "llama-3.2-1b" = 8192 ∧
    (get_context_usage (List.replicate 700 ⟨"user", ""⟩)
      "llama-3.2-1b").2.2.2 ≠ UsageStatus.CRITICAL := by
  have hc : count_message_tokens (List.replicate 700 ⟨"user", ""⟩) = 7000 := by
    rw [count_message_tokens_replicate_empty]
  refine ⟨hc, rfl, ?_⟩
  have hlim : contextLimit "llama-3.2-1b" = 8192 := by rfl
  simp only [get_context_usage, hlim, hc]
  rw [if_neg (by norm_num [CRITICAL_THRESHOLD])]
  rw [if_pos (by norm_num [WARNING_THRESHOLD])]
  decide

/-! ## C9 : totality of the dispatcher -/

theorem read_file_py_error_nonempty (fs : FS) (root : String)
    (tv bv sv ev xv : PyVal) :
    (read_file_py fs root tv bv sv ev xv).success = false →
    ∃ e, (read_file_py fs root tv bv sv ev xv).error = some e ∧ e ≠ "" := by
  simp only [read_file_py]
  repeat' split
  all_goals intro h
  all_goals
    first
      | exact ⟨_, rfl, by decide⟩
      | exact ⟨_, rfl, str_append_ne_empty _ (by decide)⟩
      | exact ⟨_, rfl, str_append_ne_empty _ (str_append_ne_empty _ (by decide))⟩
      | exact ⟨_, rfl, str_append_ne_empty _ (str_append_ne_empty _
          (str_append_ne_empty _ (by decide)))⟩
      | simp at h

theorem list_dir_py_error_nonempty (fs : FS) (root : String)
    (pv xv : PyVal) :
    (list_dir_py fs root pv xv).success = false →
    ∃ e, (list_dir_py fs root pv xv).error = some e ∧ e ≠ "" := by
  simp only [list_dir_py]
  repeat' split
  all_goals intro h
  all_goals
    first
      | exact ⟨_, rfl, by decide⟩
      | exact ⟨_, rfl, str_append_ne_empty _ (by decide)⟩
      | exact ⟨_, rfl, str_append_ne_empty _ (str_append_ne_empty _ (by decide))⟩
      | exact ⟨_, rfl, str_append_ne_empty _ (str_append_ne_empty _
          (str_append_ne_empty _ (by decide)))⟩
      | simp at h

/-- C9 (amended): for every tool name and every parameter mapping whose
keys all belong to the named registered tool's parameter list, the
dispatcher returns a `ToolResult` (never raises), and every failure
carries a non-empty error.  (A mapping with a key outside the tool's
signature makes `self.read_file(**kwargs)` raise `TypeError`, which the
dispatcher does not catch — see the counterexample.) -/
theorem c9_execute_tool_total (fs : FS) (root tool_name : String)
    (kwargs : KwArgs)
    (h1 : tool_name = "read_file" → ∀ kv ∈ kwargs, kv.1 ∈ requiredReadFile)
    (h2 : tool_name = "list_dir" → ∀ kv ∈ kwargs, kv.1 ∈ requiredListDir) :
    ∃ r, execute_tool fs root tool_name kwargs = Except.ok r ∧
      (r.success = false → ∃ e, r.error = some e ∧ e ≠ "") := by
  by_cases ht : tool_name = "read_file"
  · subst ht
    have hex : (kwargs.any (fun kv => !(requiredReadFile.contains kv.1)))
        = false := by
      rw [List.any_eq_false]
      intro kv hkv
      have hmem := h1 rfl kv hkv
      simp [List.contains_eq_any_beq, List.any_eq_true]
      exact hmem
    by_cases hm :
        (requiredReadFile.filter (fun p => !(hasKey kwargs p))).isEmpty = true
    · refine ⟨read_file_py fs root (getKey kwargs "target_file")
          (getKey kwargs "should_read_entire_file")
          (getKey kwargs "start_line_one_indexed")
          (getKey kwargs "end_line_one_indexed_inclusive")
          (getKey kwargs "explanation"), ?_,
          read_file_py_error_nonempty fs root _ _ _ _ _⟩
      simp [execute_tool, hm, hex]
      intro a b hab
      exact h1 rfl (a, b) hab
    · have hm2 :
          (requiredReadFile.filter (fun p => !(hasKey kwargs p))).isEmpty
            = false := by
        simpa using hm
      refine ⟨⟨false, "", some ("Missing required parameters: " ++
          joinSep ", " (requiredReadFile.filter
            (fun p => !(hasKey kwargs p))))⟩, ?_, ?_⟩
      · simp [execute_tool, hm2]
      · intro _
        exact ⟨_, rfl, str_append_ne_empty _ (by decide)⟩
  · by_cases hl : tool_name = "list_dir"
    · subst hl
      have hex : (kwargs.any (fun kv => !(requiredListDir.contains kv.1)))
          = false := by
        rw [List.any_eq_false]
        intro kv hkv
        have hmem := h2 rfl kv hkv
        simp [List.contains_eq_any_beq, List.any_eq_true]
        exact hmem
      by_cases hm :
          (requiredListDir.filter (fun p => !(hasKey kwargs p))).isEmpty = true
      · refine ⟨list_dir_py fs root (getKey kwargs "relative_workspace_path")
            (getKey kwargs "explanation"), ?_,
            list_dir_py_error_nonempty fs root _ _⟩
        simp [execute_tool, hm, hex]
        intro a b hab
        exact h2 rfl (a, b) hab
      · have hm2 :
            (requiredListDir.filter (fun p => !(hasKey kwargs p))).isEmpty
              = false := by
          simpa using hm
        refine ⟨⟨false, "", some ("Missing required parameters: " ++
            joinSep ", " (requiredListDir.filter
              (fun p => !(hasKey kwargs p))))⟩, ?_, ?_⟩
        · simp [execute_tool, hm2]
        · intro _
          exact ⟨_, rfl, str_append_ne_empty _ (by decide)⟩
    · refine ⟨⟨false, "", some ("Unknown tool: " ++ tool_name)⟩, ?_, ?_⟩
      · simp [execute_tool, ht, hl]
      · intro _
        exact ⟨_, rfl, str_append_ne_empty _ (by decide)⟩

/-- C9 witness: a full, correctly-keyed call on a missing file returns a
recovered failure. -/
theorem c9_witness :
    ∃ r, execute_tool ⟨fun _ => .notFound, fun _ => .notFound⟩ "/w"
        "read_file"
        [("target_file", .str "missing.txt"),
         ("should_read_entire_file", .bool false),
         ("start_line_one_indexed", .int 1),
         ("end_line_one_indexed_inclusive", .int 2),
         ("explanation", .str "e")] = Except.ok r ∧
      (r.success = false → ∃ e, r.error = some e ∧ e ≠ "") :=
  c9_execute_tool_total ⟨fun _ => .notFound, fun _ => .notFound⟩ "/w"
    "read_file" _
    (fun _ => by decide)
    (fun h => absurd h (by decide))

/-- C9 counterexample: a parameter mapping with an extra key outside
`read_file`'s signature makes the dispatcher raise `TypeError` instead
of returning a failed `ToolResult`. -/
theorem c9_counterexample :
    execute_tool ⟨fun _ => .notFound, fun _ => .notFound⟩ "/w" "read_file"
      [("target_file", .str "a.txt"),
       ("should_read_entire_file", .bool false),
       ("start_line_one_indexed", .int 1),
       ("end_line_one_indexed_inclusive", .int 2),
       ("explanation", .str "e"),
       ("bogus_extra", .int 1)] =
      Except.error "TypeError: unexpected keyword argument" := by
  rfl

/-! ## C4 : the thinking/answer splitter -/

theorem search_thinking_shape {pre inner post : List Char}
    (hpre : '<' ∉ pre) (hinner : '<' ∉ inner) :
    search_thinking (pre ++ tagOpenL ++ inner ++ tagCloseL ++ post) =
      some (pre, inner, post) := by
  have hopen : tagOpenL = '<' :: "thinking>".data := rfl
  have hclose : tagCloseL = '<' :: "/thinking>".data := rfl
  have h1 : splitFirst tagOpenL
      (pre ++ tagOpenL ++ inner ++ tagCloseL ++ post) =
      some (pre, inner ++ tagCloseL ++ post) := by
    have hs : pre ++ tagOpenL ++ inner ++ tagCloseL ++ post
        = pre ++ tagOpenL ++ (inner ++ tagCloseL ++ post) := by simp
    rw [hs]
    apply splitFirst_of_first_occ
    intro k hk
    rw [List.append_assoc, hopen]
    exact no_occ_of_head_notin hpre _ k hk
  have h2 : splitFirst tagCloseL (inner ++ tagCloseL ++ post) =
      some (inner, post) := by
    apply splitFirst_of_first_occ
    intro k hk
    rw [List.append_assoc, hclose]
    exact no_occ_of_head_notin hinner _ k hk
  simp only [search_thinking, h1, h2]

theorem search_thinking_none_of {s : List Char}
    (h : splitFirst tagOpenL s = none) : search_thinking s = none := by
  simp [search_thinking, h]

theorem subThinkingGo_of_none {s : List Char} (h : search_thinking s = none) :
    ∀ fuel, subThinkingGo fuel s = s := by
  intro fuel
  cases fuel with
  | zero => rfl
  | succ n => simp [subThinkingGo, h]

theorem splitFirst_none_dropWhile {t post : List Char} (ht : t ≠ [])
    (h : splitFirst t post = none) (p : Char → Bool) :
    splitFirst t (post.dropWhile p) = none := by
  have hdw : post.dropWhile p = post.drop (post.takeWhile p).length := by
    have h0 : post.takeWhile p ++ post.dropWhile p = post := by simp
    have h1 := List.drop_left (post.takeWhile p) (post.dropWhile p)
    rw [h0] at h1
    exact h1.symm
  apply splitFirst_eq_none
  intro k
  rw [hdw, List.drop_drop]
  exact splitFirst_none_occ ht h _

theorem sub_thinking_single {pre inner post : List Char}
    (hpre : '<' ∉ pre) (hinner : '<' ∉ inner)
    (hpost : splitFirst tagOpenL post = none) :
    sub_thinking (pre ++ tagOpenL ++ inner ++ tagCloseL ++ post) =
      pre ++ post.dropWhile pySpace := by
  have hsearch : search_thinking
      (pre ++ tagOpenL ++ inner ++ tagCloseL ++ post) =
      some (pre, inner, post) := search_thinking_shape hpre hinner
  have hlen : 1 ≤ (pre ++ tagOpenL ++ inner ++ tagCloseL ++ post).length := by
    simp [tagOpenL]
    omega
  obtain ⟨n, hn⟩ :
      ∃ n, (pre ++ tagOpenL ++ inner ++ tagCloseL ++ post).length = n + 1 :=
    ⟨(pre ++ tagOpenL ++ inner ++ tagCloseL ++ post).length - 1, by omega⟩
  unfold sub_thinking
  rw [hn]
  simp only [subThinkingGo, hsearch]
  rw [subThinkingGo_of_none
    (search_thinking_none_of (splitFirst_none_dropWhile (by decide) hpost pySpace)) n]

/-- C4 (amended): the splitter is a total function returning one pair;
when the response consists of a single `<thinking>...</thinking>` region,
`thinking` is the region's trimmed inner text and `final_answer` is the
trimmed remainder with the region **and any whitespace immediately
following it** removed; when the response has no `<thinking>` tag and no
blank-line boundary, `thinking` is the fixed placeholder and
`final_answer` is the entire response. -/
theorem c4_split_amended :
    (∀ pre inner post : List Char, '<' ∉ pre → '<' ∉ inner →
      splitFirst tagOpenL post = none →
      parse_thinking_response (pre ++ tagOpenL ++ inner ++ tagCloseL ++ post)
        = (stripL inner, stripL (pre ++ post.dropWhile pySpace))) ∧
    (∀ s : List Char, splitFirst tagOpenL s = none →
      splitFirst ['\n', '\n'] s = none →
      parse_thinking_response s =
        ("No explicit thinking process found".data, s)) := by
  constructor
  · intro pre inner post hpre hinner hpost
    have hsearch : search_thinking
        (pre ++ tagOpenL ++ inner ++ tagCloseL ++ post) =
        some (pre, inner, post) := search_thinking_shape hpre hinner
    have hsub := sub_thinking_single hpre hinner hpost
    simp only [parse_thinking_response, hsearch, hsub]
  · intro s h1 h2
    simp only [parse_thinking_response, search_thinking_none_of h1, h2]

/-- C4 witness: `split("<thinking>A</thinking>\n\nB")` through the
single-region part, and `split("no tags here")` through the placeholder
part. -/
theorem c4_witness :
    parse_thinking_response
        ("".data ++ tagOpenL ++ "A".data ++ tagCloseL ++ "\n\nB".data)
      = (stripL "A".data,
         stripL ("".data ++ "\n\nB".data.dropWhile pySpace)) ∧
    parse_thinking_response "no tags here".data
      = ("No explicit thinking process found".data, "no tags here".data) :=
  ⟨c4_split_amended.1 "".data "A".data "\n\nB".data (by decide) (by decide)
      (by decide),
   c4_split_amended.2 "no tags here".data (by decide) (by decide)⟩

/-- C4 counterexample: on `"A <thinking>T</thinking>  B"` the code
returns final answer `"A B"`, while the claim's "trimmed remainder with
the tagged region removed" is `"A   B"` (the code also deletes the
whitespace run after the closing tag, collapsing interior spacing). -/
theorem c4_counterexample :
    parse_thinking_response
        ("A ".data ++ tagOpenL ++ "T".data ++ tagCloseL ++ "  B".data)
      = ("T".data, "A B".data) ∧
    stripL ("A ".data ++ "  B".data) = "A   B".data ∧
    ("A B".data : List Char) ≠ "A   B".data := by
  refine ⟨by decide, by decide, by decide⟩

/-! ## C3 : scanner infrastructure -/

theorem matchToolAt_none_of {s : List Char} (h : ¬ toolMarker <+: s) :
    matchToolAt s = none := by
  unfold matchToolAt
  rw [if_neg]
  intro hb
  exact h (List.isPrefixOf_iff_prefix.mp hb)

theorem matchToolAt_shrink {s n i r : List Char}
    (h : matchToolAt s = some (n, i, r)) : r.length < s.length := by
  unfold matchToolAt at h
  split at h
  case isFalse => simp at h
  case isTrue hp =>
    have hlen5 : toolMarker.length ≤ s.length :=
      (List.isPrefixOf_iff_prefix.mp hp).length_le
    simp only [] at h
    split at h
    · simp at h
    · rename_i hne
      split at h
      case h_2 => simp at h
      case h_1 s2 heq =>
        split at h
        case h_2 => simp at h
        case h_1 inn rest hsf =>
          simp only [Option.some.injEq, Prod.mk.injEq] at h
          obtain ⟨-, -, hr⟩ := h
          subst hr
          have hsound := splitFirst_sound hsf
          have hlen1 := congrArg List.length heq
          have hlen2 := congrArg List.length hsound
          simp only [List.length_drop, List.length_cons,
            List.length_append] at hlen1 hlen2
          omega

theorem scanToolsGo_fuel :
    ∀ (f1 f2 : Nat) (s : List Char), s.length ≤ f1 → s.length ≤ f2 →
      scanToolsGo f1 s = scanToolsGo f2 s := by
  intro f1
  induction f1 with
  | zero =>
    intro f2 s h1 _
    have hs : s = [] := List.eq_nil_of_length_eq_zero (by omega)
    subst hs
    cases f2 <;> rfl
  | succ nn ih =>
    intro f2 s h1 h2
    cases s with
    | nil => cases f2 <;> rfl
    | cons c s2 =>
      cases f2 with
      | zero => simp at h2
      | succ m =>
        simp only [List.length_cons] at h1 h2
        cases hm : matchToolAt (c :: s2) with
        | none =>
          simp only [scanToolsGo, hm]
          exact ih m s2 (by omega) (by omega)
        | some t =>
          obtain ⟨nm, i, r⟩ := t
          have hr := matchToolAt_shrink hm
          simp only [List.length_cons] at hr
          simp only [scanToolsGo, hm]
          rw [ih m r (by omega) (by omega)]

theorem scanTools_append_skip {a b : List Char}
    (h : ∀ k, k < a.length → matchToolAt ((a ++ b).drop k) = none) :
    scanTools (a ++ b) = scanTools b := by
  induction a with
  | nil => simp
  | cons x a ih =>
    show scanTools (x :: (a ++ b)) = scanTools b
    have h0 : matchToolAt (x :: (a ++ b)) = none := by
      simpa using h 0 (by simp)
    unfold scanTools
    rw [show (x :: (a ++ b)).length = (a ++ b).length + 1 from rfl]
    simp only [scanToolsGo, h0]
    exact ih (fun k hk => by simpa using h (k + 1) (by simpa using hk))

theorem scanTools_cons_match {s n i r : List Char}
    (h : matchToolAt s = some (n, i, r)) :
    scanTools s = (n, i) :: scanTools r := by
  cases s with
  | nil =>
    rw [matchToolAt_none_of (by decide)] at h
    simp at h
  | cons c s2 =>
    unfold scanTools
    rw [show (c :: s2).length = s2.length + 1 from rfl]
    simp only [scanToolsGo, h]
    have hr := matchToolAt_shrink h
    simp only [List.length_cons] at hr
    rw [scanToolsGo_fuel s2.length r.length r (by omega) (le_refl _)]

theorem scanTools_eq_nil {s : List Char}
    (h : ∀ k, ¬ toolMarker <+: s.drop k) : scanTools s = [] := by
  suffices h2 : ∀ (fuel : Nat) (s2 : List Char),
      (∀ k, ¬ toolMarker <+: s2.drop k) → scanToolsGo fuel s2 = [] from
    h2 _ _ h
  intro fuel
  induction fuel with
  | zero => intro s2 _; rfl
  | succ n ih =>
    intro s2 hs
    cases s2 with
    | nil => rfl
    | cons c s3 =>
      have h0 : matchToolAt (c :: s3) = none :=
        matchToolAt_none_of (by simpa using hs 0)
      simp only [scanToolsGo, h0]
      exact ih s3 (fun k => by simpa using hs (k + 1))

theorem matchBlockAt_none_of {s : List Char} (h : ¬ fenceMarker <+: s) :
    matchBlockAt s = none := by
  unfold matchBlockAt
  rw [if_neg]
  intro hb
  exact h (List.isPrefixOf_iff_prefix.mp hb)

theorem matchBlockAt_shrink {s c r : List Char}
    (h : matchBlockAt s = some (c, r)) : r.length < s.length := by
  unfold matchBlockAt at h
  split at h
  case isFalse => simp at h
  case isTrue hp =>
    have hlen9 : fenceMarker.length ≤ s.length :=
      (List.isPrefixOf_iff_prefix.mp hp).length_le
    simp only [] at h
    split at h
    · split at h
      case h_2 => simp at h
      case h_1 content rest hsf =>
        simp only [Option.some.injEq, Prod.mk.injEq] at h
        obtain ⟨-, hr⟩ := h
        subst hr
        have hsound := splitFirst_sound hsf
        have hlen1 := congrArg List.length hsound
        have hws : (List.takeWhile pySpace (s.drop fenceMarker.length)).length
            ≤ (s.drop fenceMarker.length).length :=
          (List.takeWhile_prefix pySpace).length_le
        have haft :
            ((List.takeWhile pySpace (s.drop fenceMarker.length)).reverse.takeWhile
              (fun c => c ≠ '\n')).length ≤
            (List.takeWhile pySpace (s.drop fenceMarker.length)).length := by
          have h0 :=
            (List.takeWhile_prefix (l :=
              (List.takeWhile pySpace (s.drop fenceMarker.length)).reverse)
              (fun c : Char => decide (c ≠ '\n'))).length_le
          simpa using h0
        simp only [List.length_append, List.length_reverse, List.length_drop,
          nlFence, List.length_cons] at hlen1 hws haft ⊢
        have h9 : fenceMarker.length = 9 := rfl
        rw [h9] at hlen1 hws haft hlen9
        omega
    · simp at h

theorem findBlocksGo_fuel :
    ∀ (f1 f2 : Nat) (s : List Char), s.length ≤ f1 → s.length ≤ f2 →
      findBlocksGo f1 s = findBlocksGo f2 s := by
  intro f1
  induction f1 with
  | zero =>
    intro f2 s h1 _
    have hs : s = [] := List.eq_nil_of_length_eq_zero (by omega)
    subst hs
    cases f2 <;> rfl
  | succ nn ih =>
    intro f2 s h1 h2
    cases s with
    | nil => cases f2 <;> rfl
    | cons c s2 =>
      cases f2 with
      | zero => simp at h2
      | succ m =>
        simp only [List.length_cons] at h1 h2
        cases hm : matchBlockAt (c :: s2) with
        | none =>
          simp only [findBlocksGo, hm]
          exact ih m s2 (by omega) (by omega)
        | some t =>
          obtain ⟨content, r⟩ := t
          have hr := matchBlockAt_shrink hm
          simp only [List.length_cons] at hr
          simp only [findBlocksGo, hm]
          rw [ih m r (by omega) (by omega)]

theorem findBlocks_append_skip {a b : List Char}
    (h : ∀ k, k < a.length → matchBlockAt ((a ++ b).drop k) = none) :
    findBlocks (a ++ b) = findBlocks b := by
  induction a with
  | nil => simp
  | cons x a ih =>
    show findBlocks (x :: (a ++ b)) = findBlocks b
    have h0 : matchBlockAt (x :: (a ++ b)) = none := by
      simpa using h 0 (by simp)
    unfold findBlocks
    rw [show (x :: (a ++ b)).length = (a ++ b).length + 1 from rfl]
    simp only [findBlocksGo, h0]
    exact ih (fun k hk => by simpa using h (k + 1) (by simpa using hk))

theorem findBlocks_cons_match {s c r : List Char}
    (h : matchBlockAt s = some (c, r)) :
    findBlocks s = c :: findBlocks r := by
  cases s with
  | nil =>
    rw [matchBlockAt_none_of (by decide)] at h
    simp at h
  | cons x s2 =>
    unfold findBlocks
    rw [show (x :: s2).length = s2.length + 1 from rfl]
    simp only [findBlocksGo, h]
    have hr := matchBlockAt_shrink h
    simp only [List.length_cons] at hr
    rw [findBlocksGo_fuel s2.length r.length r (by omega) (le_refl _)]

theorem findBlocks_eq_nil {s : List Char}
    (h : ∀ k, ¬ fenceMarker <+: s.drop k) : findBlocks s = [] := by
  suffices h2 : ∀ (fuel : Nat) (s2 : List Char),
      (∀ k, ¬ fenceMarker <+: s2.drop k) → findBlocksGo fuel s2 = [] from
    h2 _ _ h
  intro fuel
  induction fuel with
  | zero => intro s2 _; rfl
  | succ n ih =>
    intro s2 hs
    cases s2 with
    | nil => rfl
    | cons c s3 =>
      have h0 : matchBlockAt (c :: s3) = none :=
        matchBlockAt_none_of (by simpa using hs 0)
      simp only [findBlocksGo, h0]
      exact ih s3 (fun k => by simpa using hs (k + 1))

/-! ## C3 : the position matchers on canonically shaped input -/

theorem splitFirst_paren {inner rest : List Char}
    (h : ∀ c ∈ inner, c ≠ ')') :
    splitFirst [')'] (inner ++ ')' :: rest) = some (inner, rest) := by
  have hsh : inner ++ ')' :: rest = inner ++ [')'] ++ rest := by simp
  rw [hsh]
  apply splitFirst_of_first_occ
  intro k hk
  rw [List.append_assoc]
  exact no_occ_of_head_notin (fun hmem => h ')' hmem rfl) _ k hk

theorem matchToolAt_exact {name inner rest : List Char}
    (hname : ∀ c ∈ name, wordChar c = true) (hne : name ≠ [])
    (hinner : ∀ c ∈ inner, c ≠ ')') :
    matchToolAt (toolMarker ++ (name ++ ('(' :: (inner ++ ')' :: rest)))) =
      some (name, inner, rest) := by
  have h0 : toolMarker.isPrefixOf
      (toolMarker ++ (name ++ ('(' :: (inner ++ ')' :: rest)))) = true :=
    List.isPrefixOf_iff_prefix.mpr (List.prefix_append _ _)
  have h1 : (toolMarker ++ (name ++ ('(' :: (inner ++ ')' :: rest)))).drop
      toolMarker.length = name ++ ('(' :: (inner ++ ')' :: rest)) :=
    List.drop_left _ _
  have h2 : List.takeWhile wordChar (name ++ ('(' :: (inner ++ ')' :: rest)))
      = name := by
    apply takeWhile_append_stop hname
    intro x hx
    simp only [List.head?_cons, Option.some.injEq] at hx
    rw [← hx]
    decide
  have h3 : name.isEmpty = false := by
    cases name with
    | nil => exact absurd rfl hne
    | cons a l => rfl
  have h4 : (name ++ ('(' :: (inner ++ ')' :: rest))).drop name.length
      = '(' :: (inner ++ ')' :: rest) := List.drop_left _ _
  have h5 : splitFirst [')'] (inner ++ ')' :: rest) = some (inner, rest) :=
    splitFirst_paren hinner
  simp [matchToolAt, h0, h1, h2, h3, h4, h5]

theorem matchKeyQuotedAt_exact {key v tail : List Char} {q1 q2 : Char}
    (hv : v ≠ []) (hvq : ∀ c ∈ v, isQuoteCh c = false)
    (hq1 : isQuoteCh q1 = true) (hq2 : isQuoteCh q2 = true) :
    matchKeyQuotedAt key (key ++ ('=' :: q1 :: (v ++ q2 :: tail))) = some v := by
  have h0 : key.isPrefixOf (key ++ ('=' :: q1 :: (v ++ q2 :: tail))) = true :=
    List.isPrefixOf_iff_prefix.mpr (List.prefix_append _ _)
  have h1 : (key ++ ('=' :: q1 :: (v ++ q2 :: tail))).drop key.length
      = '=' :: q1 :: (v ++ q2 :: tail) := List.drop_left _ _
  have hps : pySpace '=' = false := by decide
  have hq1s : pySpace q1 = false := by
    simp only [isQuoteCh, Bool.or_eq_true, decide_eq_true_eq] at hq1
    rcases hq1 with h | h <;> (subst h; decide)
  have h2 : List.dropWhile pySpace ('=' :: q1 :: (v ++ q2 :: tail))
      = '=' :: q1 :: (v ++ q2 :: tail) :=
    List.dropWhile_cons_of_neg (by simp [hps])
  have h3 : List.dropWhile pySpace (q1 :: (v ++ q2 :: tail))
      = q1 :: (v ++ q2 :: tail) :=
    List.dropWhile_cons_of_neg (by simp [hq1s])
  have h4 : List.takeWhile (fun c => !(isQuoteCh c)) (v ++ q2 :: tail)
      = v := by
    apply takeWhile_append_stop
    · intro c hc
      simp [hvq c hc]
    · intro x hx
      simp only [List.head?_cons, Option.some.injEq] at hx
      rw [← hx]
      simp [hq2]
  have h5 : v.isEmpty = false := by
    cases v with
    | nil => exact absurd rfl hv
    | cons a l => rfl
  have h6 : (v ++ q2 :: tail).drop v.length = q2 :: tail := List.drop_left _ _
  simp [matchKeyQuotedAt, h0, h1, h2, h3, h4, h5, h6, hq1, hq2]

theorem matchKeyQuotedAt_none_of {key s : List Char}
    (h : ¬ key <+: s) : matchKeyQuotedAt key s = none := by
  unfold matchKeyQuotedAt
  rw [if_neg]
  intro hb
  exact h (List.isPrefixOf_iff_prefix.mp hb)

theorem matchKeyNumAt_exact {key v tail : List Char}
    (hv : v ≠ []) (hvd : ∀ c ∈ v, c.isDigit = true)
    (htail : ∀ x, tail.head? = some x → x.isDigit = false) :
    matchKeyNumAt key (key ++ ('=' :: (v ++ tail))) = some v := by
  have h0 : key.isPrefixOf (key ++ ('=' :: (v ++ tail))) = true :=
    List.isPrefixOf_iff_prefix.mpr (List.prefix_append _ _)
  have h1 : (key ++ ('=' :: (v ++ tail))).drop key.length
      = '=' :: (v ++ tail) := List.drop_left _ _
  have h2 : List.dropWhile pySpace ('=' :: (v ++ tail)) = '=' :: (v ++ tail) :=
    List.dropWhile_cons_of_neg (by decide)
  have h3 : List.dropWhile pySpace (v ++ tail) = v ++ tail := by
    apply dropWhile_eq_self_head
    intro x hx
    cases v with
    | nil => exact absurd rfl hv
    | cons a l =>
      simp only [List.cons_append, List.head?_cons, Option.some.injEq] at hx
      rw [← hx]
      exact digit_not_space (hvd a (by simp))
  have h4 : List.takeWhile Char.isDigit (v ++ tail) = v :=
    takeWhile_append_stop hvd htail
  have h5 : v.isEmpty = false := by
    cases v with
    | nil => exact absurd rfl hv
    | cons a l => rfl
  simp [matchKeyNumAt, h0, h1, h2, h3, h4, h5]

theorem matchKeyNumAt_none_of {key s : List Char}
    (h : ¬ key <+: s) : matchKeyNumAt key s = none := by
  unfold matchKeyNumAt
  rw [if_neg]
  intro hb
  exact h (List.isPrefixOf_iff_prefix.mp hb)

theorem ciPrefixOf_eq_lower :
    ∀ (t s : List Char),
      ciPrefixOf t s = (lowerL t).isPrefixOf (lowerL s) := by
  intro t
  induction t with
  | nil => intro s; cases s <;> rfl
  | cons c t ih =>
    intro s
    cases s with
    | nil => rfl
    | cons d s2 =>
      show (decide (c.toLower = d.toLower) && ciPrefixOf t s2) = _
      rw [ih s2]
      show _ = ((c.toLower == d.toLower) && (lowerL t).isPrefixOf (lowerL s2))
      by_cases hc : c.toLower = d.toLower
      · simp [hc]
      · simp [hc]

theorem matchBoolAt_none_of {key s : List Char}
    (h : ciPrefixOf key s = false) : matchBoolAt key s = none := by
  unfold matchBoolAt
  rw [if_neg]
  simp [h]

theorem ciPrefixOf_self_append :
    ∀ (t rest : List Char), ciPrefixOf t (t ++ rest) = true := by
  intro t
  induction t with
  | nil => intro rest; rfl
  | cons c t ih =>
    intro rest
    show (decide (c.toLower = c.toLower) && ciPrefixOf t (t ++ rest)) = true
    simp [ih rest]

theorem matchBoolAt_exact {key tail : List Char} (b : Bool) :
    matchBoolAt key
      (key ++ ('=' :: ((if b then "true".data else "false".data) ++ tail)))
      = some b := by
  cases b with
  | true =>
    have h0 : ciPrefixOf key
        (key ++ '=' :: 't' :: 'r' :: 'u' :: 'e' :: tail) = true :=
      ciPrefixOf_self_append _ _
    have h1 : List.drop key.length
        (key ++ '=' :: 't' :: 'r' :: 'u' :: 'e' :: tail)
        = '=' :: 't' :: 'r' :: 'u' :: 'e' :: tail := List.drop_left _ _
    have h2 : List.dropWhile pySpace ('=' :: 't' :: 'r' :: 'u' :: 'e' :: tail)
        = '=' :: 't' :: 'r' :: 'u' :: 'e' :: tail :=
      List.dropWhile_cons_of_neg (by decide)
    have h3 : List.dropWhile pySpace ('t' :: 'r' :: 'u' :: 'e' :: tail)
        = 't' :: 'r' :: 'u' :: 'e' :: tail :=
      List.dropWhile_cons_of_neg (by decide)
    have h4 : ciPrefixOf ['t', 'r', 'u', 'e']
        ('t' :: 'r' :: 'u' :: 'e' :: tail) = true :=
      ciPrefixOf_self_append ['t', 'r', 'u', 'e'] tail
    simp [matchBoolAt, h0, h1, h2, h3, h4]
  | false =>
    have h0 : ciPrefixOf key
        (key ++ '=' :: 'f' :: 'a' :: 'l' :: 's' :: 'e' :: tail) = true :=
      ciPrefixOf_self_append _ _
    have h1 : List.drop key.length
        (key ++ '=' :: 'f' :: 'a' :: 'l' :: 's' :: 'e' :: tail)
        = '=' :: 'f' :: 'a' :: 'l' :: 's' :: 'e' :: tail := List.drop_left _ _
    have h2 : List.dropWhile pySpace
        ('=' :: 'f' :: 'a' :: 'l' :: 's' :: 'e' :: tail)
        = '=' :: 'f' :: 'a' :: 'l' :: 's' :: 'e' :: tail :=
      List.dropWhile_cons_of_neg (by decide)
    have h3 : List.dropWhile pySpace ('f' :: 'a' :: 'l' :: 's' :: 'e' :: tail)
        = 'f' :: 'a' :: 'l' :: 's' :: 'e' :: tail :=
      List.dropWhile_cons_of_neg (by decide)
    have h4 : ciPrefixOf ['t', 'r', 'u', 'e']
        ('f' :: 'a' :: 'l' :: 's' :: 'e' :: tail) = false := by
      show (decide ('t'.toLower = 'f'.toLower) && ciPrefixOf ['r', 'u', 'e']
        ('a' :: 'l' :: 's' :: 'e' :: tail)) = false
      rw [show decide ('t'.toLower = 'f'.toLower) = false from by decide]
      rfl
    have h5 : ciPrefixOf ['f', 'a', 'l', 's', 'e']
        ('f' :: 'a' :: 'l' :: 's' :: 'e' :: tail) = true :=
      ciPrefixOf_self_append ['f', 'a', 'l', 's', 'e'] tail
    simp [matchBoolAt, h0, h1, h2, h3, h4, h5]

/-! ## C3 : the five parameter searches on the rendered call -/

theorem skip_of_splitFirst_fst {key P A : List Char}
    (h : (splitFirst key P).map Prod.fst = some A) :
    ∀ k, k < A.length → ¬ key <+: P.drop k := by
  cases hq : splitFirst key P with
  | none => rw [hq] at h; simp at h
  | some pr =>
    obtain ⟨a0, b0⟩ := pr
    rw [hq] at h
    simp only [Option.map_some', Option.some.injEq] at h
    intro k hk
    rw [← h] at hk
    exact splitFirst_first_occ hq k hk

theorem scanTarget_render {F : List Char} (b : Bool) {S E X : List Char}
    (hF : goodFileField F) :
    scanFor (matchKeyQuotedAt keyTargetFile) (renderReadParams F b S E X)
      = some F := by
  have hshape : renderReadParams F b S E X =
      keyTargetFile ++ ('=' :: '"' :: (F ++ '"' ::
        (", should_read_entire_file=".data ++
          (if b then "true".data else "false".data) ++
          ", start_line_one_indexed=".data ++ S ++
          ", end_line_one_indexed_inclusive=".data ++ E ++
          ", explanation=\"".data ++ X ++ "\"".data))) := by
    simp [renderReadParams, keyTargetFile, List.append_assoc]
  rw [hshape]
  exact scanFor_eq_of_matchAt (matchKeyQuotedAt_exact hF.1
    (fun c hc => (hF.2 c hc).1) (by decide) (by decide))

theorem scanBool_render {F : List Char} {b : Bool} {S E X : List Char}
    (hclean1 : (splitFirst keyShouldRead
        (lowerL (renderReadParams F b S E X))).map Prod.fst =
      some (lowerL ("target_file=\"".data ++ F ++ "\", ".data))) :
    scanFor (matchBoolAt keyShouldRead) (renderReadParams F b S E X)
      = some b := by
  have hshape : renderReadParams F b S E X =
      ("target_file=\"".data ++ F ++ "\", ".data) ++
        (keyShouldRead ++ ('=' ::
          ((if b then "true".data else "false".data) ++
            (", start_line_one_indexed=".data ++ S ++
             ", end_line_one_indexed_inclusive=".data ++ E ++
             ", explanation=\"".data ++ X ++ "\"".data)))) := by
    simp [renderReadParams, keyShouldRead, List.append_assoc]
  have hocc := skip_of_splitFirst_fst hclean1
  rw [hshape]
  rw [scanFor_append_skip]
  · exact scanFor_eq_of_matchAt (matchBoolAt_exact b)
  · intro k hk
    apply matchBoolAt_none_of
    rw [ciPrefixOf_eq_lower]
    rw [show lowerL keyShouldRead = keyShouldRead from by decide]
    rw [← Bool.not_eq_true, List.isPrefixOf_iff_prefix]
    have hdrop : lowerL ((("target_file=\"".data ++ F ++ "\", ".data) ++
        (keyShouldRead ++ ('=' ::
          ((if b then "true".data else "false".data) ++
            (", start_line_one_indexed=".data ++ S ++
             ", end_line_one_indexed_inclusive=".data ++ E ++
             ", explanation=\"".data ++ X ++ "\"".data))))).drop k)
        = (lowerL (renderReadParams F b S E X)).drop k := by
      rw [← hshape]
      unfold lowerL
      rw [List.map_drop]
    rw [hdrop]
    apply hocc
    have hlenA : (lowerL ("target_file=\"".data ++ F ++ "\", ".data)).length
        = ("target_file=\"".data ++ F ++ "\", ".data).length := by
      unfold lowerL
      rw [List.length_map]
    omega

theorem scanStart_render {F : List Char} {b : Bool} {S E X : List Char}
    (hS : goodNumField S)
    (hclean2 : (splitFirst keyStartLine (renderReadParams F b S E X)).map
        Prod.fst =
      some ("target_file=\"".data ++ F ++ "\", should_read_entire_file=".data
        ++ (if b then "true".data else "false".data) ++ ", ".data)) :
    scanFor (matchKeyNumAt keyStartLine) (renderReadParams F b S E X)
      = some S := by
  have hshape : renderReadParams F b S E X =
      ("target_file=\"".data ++ F ++ "\", should_read_entire_file=".data ++
        (if b then "true".data else "false".data) ++ ", ".data) ++
        (keyStartLine ++ ('=' :: (S ++
          (',' :: (" end_line_one_indexed_inclusive=".data ++ E ++
            ", explanation=\"".data ++ X ++ "\"".data))))) := by
    simp [renderReadParams, keyStartLine, List.append_assoc]
  have hocc := skip_of_splitFirst_fst hclean2
  rw [hshape]
  rw [scanFor_append_skip]
  · apply scanFor_eq_of_matchAt
    apply matchKeyNumAt_exact hS.1 hS.2
    intro x hx
    simp only [List.head?_cons, Option.some.injEq] at hx
    rw [← hx]
    decide
  · intro k hk
    apply matchKeyNumAt_none_of
    rw [← hshape]
    exact hocc k hk

theorem scanEnd_render {F : List Char} {b : Bool} {S E X : List Char}
    (hE : goodNumField E)
    (hclean3 : (splitFirst keyEndLine (renderReadParams F b S E X)).map
        Prod.fst =
      some ("target_file=\"".data ++ F ++ "\", should_read_entire_file=".data
        ++ (if b then "true".data else "false".data) ++
        ", start_line_one_indexed=".data ++ S ++ ", ".data)) :
    scanFor (matchKeyNumAt keyEndLine) (renderReadParams F b S E X)
      = some E := by
  have hshape : renderReadParams F b S E X =
      ("target_file=\"".data ++ F ++ "\", should_read_entire_file=".data ++
        (if b then "true".data else "false".data) ++
        ", start_line_one_indexed=".data ++ S ++ ", ".data) ++
        (keyEndLine ++ ('=' :: (E ++
          (',' :: (" explanation=\"".data ++ X ++ "\"".data))))) := by
    simp [renderReadParams, keyEndLine, List.append_assoc]
  have hocc := skip_of_splitFirst_fst hclean3
  rw [hshape]
  rw [scanFor_append_skip]
  · apply scanFor_eq_of_matchAt
    apply matchKeyNumAt_exact hE.1 hE.2
    intro x hx
    simp only [List.head?_cons, Option.some.injEq] at hx
    rw [← hx]
    decide
  · intro k hk
    apply matchKeyNumAt_none_of
    rw [← hshape]
    exact hocc k hk

theorem scanExpl_render {F : List Char} {b : Bool} {S E X : List Char}
    (hX : goodExplField X)
    (hclean4 : (splitFirst keyExplanation (renderReadParams F b S E X)).map
        Prod.fst =
      some ("target_file=\"".data ++ F ++ "\", should_read_entire_file=".data
        ++ (if b then "true".data else "false".data) ++
        ", start_line_one_indexed=".data ++ S ++
        ", end_line_one_indexed_inclusive=".data ++ E ++ ", ".data)) :
    scanFor (matchKeyQuotedAt keyExplanation) (renderReadParams F b S E X)
      = some X := by
  have hshape : renderReadParams F b S E X =
      ("target_file=\"".data ++ F ++ "\", should_read_entire_file=".data ++
        (if b then "true".data else "false".data) ++
        ", start_line_one_indexed=".data ++ S ++
        ", end_line_one_indexed_inclusive=".data ++ E ++ ", ".data) ++
        (keyExplanation ++ ('=' :: '"' :: (X ++ '"' :: []))) := by
    simp [renderReadParams, keyExplanation, List.append_assoc]
  have hocc := skip_of_splitFirst_fst hclean4
  rw [hshape]
  rw [scanFor_append_skip]
  · exact scanFor_eq_of_matchAt (matchKeyQuotedAt_exact hX.1
      (fun c hc => (hX.2 c hc).1) (by decide) (by decide))
  · intro k hk
    apply matchKeyQuotedAt_none_of
    rw [← hshape]
    exact hocc k hk

/-! ## C3 : extraction of the whole rendered call -/

theorem readCallOf_render {F : List Char} {b : Bool} {S E X : List Char}
    (hF : goodFileField F) (hS : goodNumField S) (hE : goodNumField E)
    (hX : goodExplField X) (hclean : cleanReadParams F b S E X) :
    readCallOf (renderReadParams F b S E X) =
      some ((expectedReadCall F b S E X).2,
        "read_file:" ++ (⟨F⟩ : String) ++ ":" ++
          toString ((digitsToNat S : Int)) ++ ":" ++
          toString ((digitsToNat E : Int))) := by
  obtain ⟨hc1, hc2, hc3, hc4⟩ := hclean
  have ht : scanFor (matchKeyQuotedAt keyTargetFile)
      (renderReadParams F b S E X) = some F := scanTarget_render b hF
  have hb : scanFor (matchBoolAt keyShouldRead)
      (renderReadParams F b S E X) = some b := scanBool_render hc1
  have hs : scanFor (matchKeyNumAt keyStartLine)
      (renderReadParams F b S E X) = some S := scanStart_render hS hc2
  have he : scanFor (matchKeyNumAt keyEndLine)
      (renderReadParams F b S E X) = some E := scanEnd_render hE hc3
  have hx : scanFor (matchKeyQuotedAt keyExplanation)
      (renderReadParams F b S E X) = some X := scanExpl_render hX hc4
  have hstrip : stripL F = F :=
    stripL_eq_self (fun c hc => (hF.2 c hc).2.2)
  simp only [readCallOf, searchTargetFile, ht, hb, hs, he, hx, hstrip,
    expectedReadCall]

theorem renderReadParams_no_paren {F : List Char} {b : Bool}
    {S E X : List Char}
    (hF : goodFileField F) (hS : goodNumField S) (hE : goodNumField E)
    (hX : goodExplField X) :
    ')' ∉ renderReadParams F b S E X := by
  intro hc
  cases b <;> simp [renderReadParams] at hc <;>
    rcases hc with h | h | h | h <;>
      first
        | exact (hF.2 _ h).2.1 rfl
        | exact (hX.2 _ h).2.1 rfl
        | exact absurd (hS.2 _ h) (by decide)
        | exact absurd (hE.2 _ h) (by decide)

theorem matchToolAt_renderCall {F : List Char} {b : Bool}
    {S E X post : List Char}
    (hnp : ')' ∉ renderReadParams F b S E X) :
    matchToolAt (renderReadCall F b S E X ++ post) =
      some ("read_file".data, renderReadParams F b S E X, post) := by
  have hshape : renderReadCall F b S E X ++ post =
      toolMarker ++ ("read_file".data ++ ('(' ::
        (renderReadParams F b S E X ++ ')' :: post))) := by
    simp [renderReadCall, toolMarker, List.append_assoc]
  rw [hshape]
  exact matchToolAt_exact (by decide) (by decide)
    (fun c hc he => hnp (he ▸ hc))

theorem renderCall_take4 {F : List Char} {b : Bool} {S E X post : List Char} :
    (renderReadCall F b S E X ++ post).take (toolMarker.length - 1)
      = "TOOL".data := by
  have hshape : renderReadCall F b S E X ++ post =
      "TOOL:read_file(".data ++
        (renderReadParams F b S E X ++ (')' :: post)) := by
    simp [renderReadCall, List.append_assoc]
  rw [hshape]
  rw [List.take_append_of_le_length (by decide)]
  decide

theorem scanTools_single_call {pre F : List Char} {b : Bool}
    {S E X post : List Char}
    (hnp : ')' ∉ renderReadParams F b S E X)
    (hpre : containsSeq toolMarker (pre ++ "TOOL".data) = false)
    (hpost : containsSeq toolMarker post = false) :
    scanTools (pre ++ (renderReadCall F b S E X ++ post)) =
      [("read_file".data, renderReadParams F b S E X)] := by
  have hskip : ∀ k, k < pre.length →
      matchToolAt ((pre ++ (renderReadCall F b S E X ++ post)).drop k)
        = none := by
    intro k hk
    apply matchToolAt_none_of
    apply no_occ_left (by decide) ?_ k hk
    rw [renderCall_take4]
    exact hpre
  rw [scanTools_append_skip hskip,
    scanTools_cons_match (matchToolAt_renderCall hnp),
    scanTools_eq_nil (containsSeq_false_occ (by decide) hpost)]

/-! ## C3 : fenced code blocks and call deduplication -/

theorem renderReadCall_no_newline {F : List Char} {b : Bool}
    {S E X : List Char}
    (hF : goodFileField F) (hS : goodNumField S) (hE : goodNumField E)
    (hX : goodExplField X) :
    '\n' ∉ renderReadCall F b S E X := by
  intro hc
  cases b <;> simp [renderReadCall, renderReadParams] at hc <;>
    rcases hc with h | h | h | h <;>
      first
        | exact absurd ((hF.2 _ h).2.2) (by decide)
        | exact (hX.2 _ h).2.2 rfl
        | exact absurd (hS.2 _ h) (by decide)
        | exact absurd (hE.2 _ h) (by decide)

theorem matchBlockAt_exact {c : Char} {bs post : List Char}
    (hc : pySpace c = false) (hnl : '\n' ∉ (c :: bs)) :
    matchBlockAt (fenceMarker ++ ('\n' :: ((c :: bs) ++ (nlFence ++ post))))
      = some (c :: bs, post) := by
  have h0 : fenceMarker.isPrefixOf
      (fenceMarker ++ ('\n' :: ((c :: bs) ++ (nlFence ++ post)))) = true :=
    List.isPrefixOf_iff_prefix.mpr (List.prefix_append _ _)
  have h1 : (fenceMarker ++
        ('\n' :: ((c :: bs) ++ (nlFence ++ post)))).drop fenceMarker.length
      = '\n' :: ((c :: bs) ++ (nlFence ++ post)) := List.drop_left _ _
  have h2 : List.takeWhile pySpace ('\n' :: c :: (bs ++ (nlFence ++ post)))
      = ['\n'] := by
    rw [List.takeWhile_cons_of_pos (by decide),
      List.takeWhile_cons_of_neg (by simp [hc])]
  have h4 : (List.takeWhile (fun x => !(x = '\n'))
      (['\n'] : List Char).reverse).reverse = ([] : List Char) := by decide
  have hsf : splitFirst nlFence (c :: (bs ++ (nlFence ++ post)))
      = some (c :: bs, post) := by
    rw [← List.cons_append, ← List.append_assoc]
    apply splitFirst_of_first_occ
    intro k hk
    rw [List.append_assoc]
    rw [show (nlFence : List Char) = '\n' :: "```".data from by decide]
    exact no_occ_of_head_notin hnl _ k hk
  simp [matchBlockAt, h0, h1, h2, h4, hsf]

theorem findBlocks_fenced {pre F : List Char} {b : Bool}
    {S E X post : List Char}
    (hnl : '\n' ∉ renderReadCall F b S E X)
    (hfpre : containsSeq fenceMarker (pre ++ "```pytho".data) = false)
    (hfpost : containsSeq fenceMarker post = false) :
    findBlocks (pre ++ ("```python\n".data ++
        (renderReadCall F b S E X ++ ("\n```".data ++ post)))) =
      [renderReadCall F b S E X] := by
  have htake : ("```python\n".data ++
        (renderReadCall F b S E X ++ ("\n```".data ++ post))).take
          (fenceMarker.length - 1) = "```pytho".data := by
    rw [List.take_append_of_le_length (by decide)]
    decide
  have hskip : ∀ k, k < pre.length →
      matchBlockAt ((pre ++ ("```python\n".data ++
        (renderReadCall F b S E X ++ ("\n```".data ++ post)))).drop k)
        = none := by
    intro k hk
    apply matchBlockAt_none_of
    apply no_occ_left (by decide) ?_ k hk
    rw [htake]
    exact hfpre
  rw [findBlocks_append_skip hskip]
  have hshape : "```python\n".data ++
      (renderReadCall F b S E X ++ ("\n```".data ++ post)) =
      fenceMarker ++
        ('\n' :: (renderReadCall F b S E X ++ (nlFence ++ post))) := by
    simp [fenceMarker, nlFence]
  rw [hshape]
  have hrc : renderReadCall F b S E X =
      'T' :: ("OOL:read_file(".data ++
        (renderReadParams F b S E X ++ [')'])) := by
    simp [renderReadCall,
      show ("TOOL:read_file(".data : List Char) = 'T' :: "OOL:read_file(".data
        from by decide,
      show ((")" : String).data : List Char) = [')'] from by decide,
      List.append_assoc]
  have hnl2 : '\n' ∉ 'T' :: ("OOL:read_file(".data ++
      (renderReadParams F b S E X ++ [')'])) := hrc ▸ hnl
  rw [hrc, findBlocks_cons_match (matchBlockAt_exact (by decide) hnl2),
    findBlocks_eq_nil (containsSeq_false_occ (by decide) hfpost)]

theorem scanTools_renderCall {F : List Char} {b : Bool} {S E X : List Char}
    (hnp : ')' ∉ renderReadParams F b S E X) :
    scanTools (renderReadCall F b S E X) =
      [("read_file".data, renderReadParams F b S E X)] := by
  have h : matchToolAt (renderReadCall F b S E X ++ []) =
      some ("read_file".data, renderReadParams F b S E X, []) :=
    matchToolAt_renderCall hnp
  rw [List.append_nil] at h
  have hnil : ∀ k : ℕ, ¬ toolMarker <+: ([] : List Char).drop k := by
    intro k hp
    rw [List.drop_nil] at hp
    exact absurd (List.prefix_nil.mp hp) (by decide)
  rw [scanTools_cons_match h, scanTools_eq_nil hnil]

theorem processCallsGo_single {P : List Char} {params : KwArgs}
    {cid : String} (h : readCallOf P = some (params, cid)) :
    processCallsGo [("read_file".data, P)] [] = [("read_file", params)] := by
  simp [processCallsGo, h]

theorem processCallsGo_dup {P1 P2 : List Char} {params1 params2 : KwArgs}
    {cid : String}
    (h1 : readCallOf P1 = some (params1, cid))
    (h2 : readCallOf P2 = some (params2, cid)) :
    processCallsGo [("read_file".data, P1), ("read_file".data, P2)] [] =
      [("read_file", params1)] := by
  simp [processCallsGo, h1, h2]

theorem parse_tool_calls_eq (response : List Char) :
    parse_tool_calls response =
      processCallsGo (scanTools response ++
        ((findBlocks response).map scanTools).foldr
          (fun a b => a ++ b) []) [] := rfl

/-- C3: for every response text containing a well-formed
`TOOL:read_file(...)` call with valid required fields (quoted non-empty
file name and explanation, non-empty digit line numbers, the canonical
field order, no stray marker occurrences), extraction yields exactly one
tool call carrying the literal parameter values — both when the call sits
in plain text (part 1) and when it sits inside a fenced python code block
(part 2) — and two read_file calls with identical target file, start line
and end line anywhere in the same response yield exactly one tool call in
total (part 3, where the boolean flag and the explanation of the second
call may even differ). -/
theorem c3_extraction (F : List Char) (b : Bool) (S E X : List Char)
    (hF : goodFileField F) (hS : goodNumField S) (hE : goodNumField E)
    (hX : goodExplField X) (hclean : cleanReadParams F b S E X) :
    (∀ pre post : List Char,
      containsSeq toolMarker (pre ++ "TOOL".data) = false →
      containsSeq toolMarker post = false →
      containsSeq fenceMarker
        (pre ++ (renderReadCall F b S E X ++ post)) = false →
      parse_tool_calls (pre ++ (renderReadCall F b S E X ++ post)) =
        [expectedReadCall F b S E X]) ∧
    (∀ pre post : List Char,
      containsSeq toolMarker (pre ++ "```python\nTOOL".data) = false →
      containsSeq toolMarker ("\n```".data ++ post) = false →
      containsSeq fenceMarker (pre ++ "```pytho".data) = false →
      containsSeq fenceMarker post = false →
      parse_tool_calls (pre ++ ("```python\n".data ++
          (renderReadCall F b S E X ++ ("\n```".data ++ post)))) =
        [expectedReadCall F b S E X]) ∧
    (∀ (b2 : Bool) (X2 pre mid post : List Char),
      goodExplField X2 → cleanReadParams F b2 S E X2 →
      containsSeq toolMarker (pre ++ "TOOL".data) = false →
      containsSeq toolMarker (mid ++ "TOOL".data) = false →
      containsSeq toolMarker post = false →
      containsSeq fenceMarker (pre ++ (renderReadCall F b S E X ++
        (mid ++ (renderReadCall F b2 S E X2 ++ post)))) = false →
      parse_tool_calls (pre ++ (renderReadCall F b S E X ++
        (mid ++ (renderReadCall F b2 S E X2 ++ post)))) =
        [expectedReadCall F b S E X]) := by
  have hnp : ')' ∉ renderReadParams F b S E X :=
    renderReadParams_no_paren hF hS hE hX
  have hro := readCallOf_render hF hS hE hX hclean
  refine ⟨?_, ?_, ?_⟩
  · intro pre post hpre hpost hfence
    have hsc := scanTools_single_call hnp hpre hpost
    have hfb : findBlocks (pre ++ (renderReadCall F b S E X ++ post)) = [] :=
      findBlocks_eq_nil (containsSeq_false_occ (by decide) hfence)
    rw [parse_tool_calls_eq, hsc, hfb]
    simp only [List.map_nil, List.foldr_nil, List.append_nil]
    rw [processCallsGo_single hro]
    rfl
  · intro pre post hpre hpost hfpre hfpost
    have hpre2 : containsSeq toolMarker
        ((pre ++ "```python\n".data) ++ "TOOL".data) = false := by
      rw [List.append_assoc,
        show ("```python\n".data ++ "TOOL".data : List Char) =
          "```python\nTOOL".data from by decide]
      exact hpre
    have hsc : scanTools (pre ++ ("```python\n".data ++
        (renderReadCall F b S E X ++ ("\n```".data ++ post)))) =
        [("read_file".data, renderReadParams F b S E X)] := by
      rw [show pre ++ ("```python\n".data ++
          (renderReadCall F b S E X ++ ("\n```".data ++ post))) =
        (pre ++ "```python\n".data) ++
          (renderReadCall F b S E X ++ ("\n```".data ++ post))
        from by rw [List.append_assoc]]
      exact scanTools_single_call hnp hpre2 hpost
    have hnl : '\n' ∉ renderReadCall F b S E X :=
      renderReadCall_no_newline hF hS hE hX
    have hfb := findBlocks_fenced hnl hfpre hfpost
    have hscr := scanTools_renderCall hnp
    rw [parse_tool_calls_eq, hsc, hfb]
    simp only [List.map_cons, List.map_nil, List.foldr_cons,
      List.foldr_nil, List.append_nil, hscr, List.singleton_append]
    rw [processCallsGo_dup hro hro]
    rfl
  · intro b2 X2 pre mid post hX2 hclean2 hpre hmid hpost hfence
    have hnp2 : ')' ∉ renderReadParams F b2 S E X2 :=
      renderReadParams_no_paren hF hS hE hX2
    have hro2 := readCallOf_render hF hS hE hX2 hclean2
    have hmatch1 : matchToolAt (renderReadCall F b S E X ++
        (mid ++ (renderReadCall F b2 S E X2 ++ post))) =
        some ("read_file".data, renderReadParams F b S E X,
          mid ++ (renderReadCall F b2 S E X2 ++ post)) :=
      matchToolAt_renderCall hnp
    have hsc : scanTools (pre ++ (renderReadCall F b S E X ++
        (mid ++ (renderReadCall F b2 S E X2 ++ post)))) =
        [("read_file".data, renderReadParams F b S E X),
         ("read_file".data, renderReadParams F b2 S E X2)] := by
      have hskip : ∀ k, k < pre.length →
          matchToolAt ((pre ++ (renderReadCall F b S E X ++
            (mid ++ (renderReadCall F b2 S E X2 ++ post)))).drop k)
            = none := by
        intro k hk
        apply matchToolAt_none_of
        apply no_occ_left (by decide) ?_ k hk
        rw [renderCall_take4]
        exact hpre
      rw [scanTools_append_skip hskip, scanTools_cons_match hmatch1,
        scanTools_single_call hnp2 hmid hpost]
    have hfb : findBlocks (pre ++ (renderReadCall F b S E X ++
        (mid ++ (renderReadCall F b2 S E X2 ++ post)))) = [] :=
      findBlocks_eq_nil (containsSeq_false_occ (by decide) hfence)
    rw [parse_tool_calls_eq, hsc, hfb]
    simp only [List.map_nil, List.foldr_nil, List.append_nil]
    rw [processCallsGo_dup hro hro2]
    rfl

set_option maxRecDepth 40000 in
/-- Witness for C3: a concrete response with ordinary prose around a
well-formed read_file call parses to exactly the literal tool call. -/
theorem c3_witness :
    parse_tool_calls (("I will read it now. " : String).data ++
        (renderReadCall "notes.txt".data true "1".data "40".data
            "inspect the notes".data ++ (" Done." : String).data)) =
      [expectedReadCall "notes.txt".data true "1".data "40".data
        "inspect the notes".data] :=
  (c3_extraction "notes.txt".data true "1".data "40".data
      "inspect the notes".data (by unfold goodFileField; decide)
      (by unfold goodNumField; decide) (by unfold goodNumField; decide)
      (by unfold goodExplField; decide)
      (by unfold cleanReadParams; decide)).1
    ("I will read it now. " : String).data (" Done." : String).data
    (by decide) (by decide) (by decide)

end LlamaTools
